import Mathlib

/-!
Verification of the LitOrganizer PDF-organizing pipeline.

This file gives a shallow embedding of the core functions of the
repository (modules/utils/file_utils.py, modules/utils/reference_formatter.py,
modules/utils/pdf_metadata_extractor.py, modules/core/pdf_renamer.py) and
proves or refutes the claims made about them.

Python strings are modelled as `List Char` (called `Str` below); Python
`None`-able values as `Option`; Python dictionaries appearing in the data
model as Lean structures whose `Option` fields record key presence.
-/

set_option maxRecDepth 10000

/-- Python strings are modelled as lists of characters. -/
abbrev Str := List Char

/-- The six ASCII whitespace characters recognised by Python str.split /
str.strip (the model restricts Python whitespace to ASCII). -/
def pyIsSpace (c : Char) : Bool :=
  c = ' ' || c = '\t' || c = '\n' || c = '\x0d' || c = '\x0b' || c = '\x0c'

/-- Python str.strip(): drop whitespace from both ends. -/
def pyStrip (s : Str) : Str :=
  ((s.dropWhile pyIsSpace).reverse.dropWhile pyIsSpace).reverse

/-- Python str.split() with no separator: whitespace-delimited words, empty
words discarded.  `acc` is the current word accumulated in reverse. -/
def pySplitAux : Str → Str → List Str
  | [], acc => if acc = [] then [] else [acc.reverse]
  | c :: cs, acc =>
    if pyIsSpace c then
      if acc = [] then pySplitAux cs [] else acc.reverse :: pySplitAux cs []
    else
      pySplitAux cs (c :: acc)

/-- Python str.split() with no separator. -/
def pySplit (s : Str) : List Str := pySplitAux s []

/-- Python " ".join(words): intercalate a single space. -/
def spaceJoin (ws : List Str) : Str := List.intercalate [' '] ws

/-- The invalid filename characters replaced by sanitize_filename
(file_utils.py lines 117-118). -/
def invalidFileChar (c : Char) : Bool :=
  c = '<' || c = '>' || c = ':' || c = '\x22' || c = '/' || c = '\\' ||
  c = '|' || c = '?' || c = '*'

/-- file_utils.sanitize_filename, step 1: each invalid character becomes
an underscore. -/
def replaceInvalid (s : Str) : Str :=
  s.map (fun c => if invalidFileChar c then '_' else c)

/-- os.path.splitext on a string containing no path separators (by the
time the code calls it, slashes and backslashes have been replaced):
split at the last dot, unless every character before that dot is itself
a dot (leading dots are not an extension), in which case the extension
is empty. -/
def pySplitext (s : Str) : Str × Str :=
  match s.reverse.indexOf? '.' with
  | none => (s, [])
  | some revIdx =>
    let dotIdx := s.length - 1 - revIdx
    if (s.take dotIdx).all (fun c => c = '.') then (s, [])
    else (s.take dotIdx, s.drop dotIdx)

/-- Python list slicing name[:k] where k may be negative
(a negative k counts from the end of the list). -/
def pySliceTo (s : Str) (k : Int) : Str :=
  if k < 0 then s.take (s.length - (-k).toNat) else s.take k.toNat

/-- file_utils.sanitize_filename (file_utils.py lines 106-128): replace
the invalid characters with underscores, collapse whitespace runs to a
single space, and if the result is longer than 240 characters truncate
the stem to fit 236 characters including the extension. -/
def sanitize_filename (s : Str) : Str :=
  let s1 := replaceInvalid s
  let s2 := spaceJoin (pySplit s1)
  if s2.length > 240 then
    let ne := pySplitext s2
    pySliceTo ne.1 (236 - (ne.2.length : Int)) ++ ne.2
  else s2

example : sanitize_filename "a  b?c".toList = "a b_c".toList := by decide
example : pySplitext "ab.cd".toList = ("ab".toList, ".cd".toList) := by decide
example : pySplitext "..cd".toList = ("..cd".toList, ([] : Str)) := by decide
example : pySplitext "abcd".toList = ("abcd".toList, ([] : Str)) := by decide

/-- An author entry as it occurs in metadata dictionaries in the source:
either a Python dict (with optional keys family, given, name) or a bare
string.  A dict with none of the three keys models the empty dict. -/
inductive Author
  | dict (family given name : Option Str)
  | str (s : Str)
deriving DecidableEq

/-- Python truthiness of an author entry: a dict is truthy when nonempty
(modelled: some relevant key present), a string when nonempty. -/
def Author.truthy : Author → Bool
  | .dict f g n => f.isSome || g.isSome || n.isSome
  | .str s => s ≠ []

/-- The validity filter of reference_formatter.format_authors_for_reference
line 112: author is truthy and not the literal string "Unknown Author"
(a dict never equals a string in Python). -/
def validAuthor : Author → Bool
  | .dict f g n => Author.truthy (.dict f g n)
  | .str s => s ≠ [] && s ≠ "Unknown Author".toList

/-- Upper-cased first letter of each word followed by a period and a
space, concatenated, then stripped: the initials loop of
reference_formatter.format_author_name. -/
def initialsOf (ws : List Str) : Str :=
  pyStrip (List.flatten (ws.map (fun w => [(w.headD ' ').toUpper, '.', ' '])))

/-- Split a string at its first comma; none when no comma occurs
(models the combination of the `"," in s` test and s.split(",", 1)). -/
def breakAtComma : Str → Str × Option Str
  | [] => ([], none)
  | c :: cs =>
    if c = ',' then ([], some cs)
    else
      let r := breakAtComma cs
      (c :: r.1, r.2)

/-- reference_formatter.format_author_name (lines 146-214). -/
def format_author_name (a : Author) : Str :=
  match a with
  | .dict family given nameFld =>
    let last_name := pyStrip (family.getD [])
    let given_name := pyStrip (given.getD [])
    if last_name = [] then
      let full_name := pyStrip (nameFld.getD [])
      if full_name ≠ [] then full_name else "Unknown".toList
    else
      let initials := initialsOf (pySplit given_name)
      if initials ≠ [] then last_name ++ ", ".toList ++ initials else last_name
  | .str s =>
    let author_str := pyStrip s
    if author_str = [] || author_str = "Unknown Author".toList then "Unknown".toList
    else
      match (breakAtComma author_str).2 with
      | some after =>
        let last_name := pyStrip (breakAtComma author_str).1
        let first_names := pyStrip after
        let initials := initialsOf (pySplit first_names)
        if initials ≠ [] then last_name ++ ", ".toList ++ initials else last_name
      | none =>
        let parts := pySplit author_str
        match parts with
        | [] => initialsOf []   -- unreachable: author_str is nonempty and unstripped of spaces
        | [p] => p
        | _ :: _ :: _ =>
          let last_name := parts.getLastD []
          let initials := initialsOf (parts.dropLast)
          if initials ≠ [] then last_name ++ ", ".toList ++ initials else last_name

/-- reference_formatter.format_authors_for_reference (lines 97-143). -/
def format_authors_for_reference (authors : List Author) : Str :=
  let valid_authors := authors.filter validAuthor
  if valid_authors = [] then "Unknown".toList
  else if valid_authors.length = 1 then format_author_name (valid_authors.headD (.str []))
  else if valid_authors.length < 8 then
    let formatted := (valid_authors.map format_author_name).filter (fun fa => fa ≠ [])
    if formatted = [] then "Unknown".toList
    else if formatted.length = 1 then formatted.headD []
    else
      List.intercalate ", ".toList (formatted.dropLast) ++ ", & ".toList ++ formatted.getLastD []
  else
    let formatted := ((valid_authors.take 6).map format_author_name).filter (fun fa => fa ≠ [])
    let last_author := format_author_name (valid_authors.getLastD (.str []))
    if formatted = [] then "Unknown".toList
    else
      let withDots := formatted ++ ["...".toList]
      let full := withDots ++ [if last_author ≠ [] then last_author else "Unknown".toList]
      List.intercalate ", ".toList full

example : format_author_name (.str "John Smith".toList) = "Smith, J.".toList := by decide
example : format_author_name (.dict (some "Doe".toList) (some "Jane Marie".toList) none)
    = "Doe, J. M.".toList := by decide
example : format_authors_for_reference [.str "A B".toList, .str "C D".toList]
    = "B, A., & D, C.".toList := by decide
example : format_authors_for_reference [.str ",".toList, .str ",".toList]
    = "Unknown".toList := by decide

/-- Decimal digit character. -/
def natDigitChar (n : Nat) : Char := Char.ofNat (48 + n)

/-- Decimal rendering of a natural number, fuel-based so that it reduces
in the kernel; models str(int) for the non-negative integers the code
renders. -/
def natDigitsAux : Nat → Nat → Str
  | 0, n => [natDigitChar (n % 10)]
  | f+1, n => if n < 10 then [natDigitChar n] else natDigitsAux f (n / 10) ++ [natDigitChar (n % 10)]

/-- str(n) for a natural number n. -/
def natDigits (n : Nat) : Str := natDigitsAux n n

example : natDigits 2020 = "2020".toList := by decide

/-- The normalized metadata dictionary built by every source adapter.
Option-free string fields use the empty string for an absent key, which
is behaviourally identical everywhere the pipeline consumes them
(truthiness tests and defaulted .get calls only). -/
structure Metadata where
  doi : Str
  title : Str
  authors : List Author
  year : Str
  journal : Str
  volume : Str
  issue : Str
  pages : Str
  category : Str
  subjects : List Str
  source : Str
deriving DecidableEq

/-- pdf_metadata_extractor.has_sufficient_metadata (lines 1971-1994):
title nonempty and (authors nonempty or year nonempty). -/
def has_sufficient_metadata (md : Metadata) : Bool :=
  (md.title ≠ []) && ((md.authors ≠ []) || (md.year ≠ []))

/-- One element of the Crossref message author array: only its optional
family key is read by the adapter. -/
structure CRAuthor where
  family : Option Str
deriving DecidableEq

/-- The fields of the Crossref message object read by
get_metadata_from_crossref.  A list-valued key that is absent is
modelled as the empty list (both are falsy in the guards); each of the
three date fields is some when the field and its date-parts key are both
present. -/
structure CrossrefMsg where
  title : List Str
  author : Option (List CRAuthor)
  publishedPrint : Option (List (List Nat))
  publishedOnline : Option (List (List Nat))
  created : Option (List (List Nat))
  containerTitle : List Str
  subject : List Str
deriving DecidableEq

/-- Year candidate from one date field: str(date_parts[0][0]) when
date_parts, date_parts[0] and date_parts[0][0] are all truthy. -/
def datePartsYear : Option (List (List Nat)) → Option Str
  | none => none
  | some [] => none
  | some ([] :: _) => none
  | some ((y :: _) :: _) => if y ≠ 0 then some (natDigits y) else none

/-- The date-field scan of get_metadata_from_crossref (lines 233-239):
published-print, then published-online, then created. -/
def crossrefYear (m : CrossrefMsg) : Str :=
  match datePartsYear m.publishedPrint with
  | some y => y
  | none =>
    match datePartsYear m.publishedOnline with
    | some y => y
    | none => (datePartsYear m.created).getD []

/-- pdf_metadata_extractor.get_metadata_from_crossref (lines 184-257).
The network call is abstracted: none models a request exception or a
non-200 response.  The built dictionary has no volume/issue/pages keys
(modelled as empty strings) and no subjects key (modelled as the empty
list); authors are appended as bare family-name strings. -/
def get_metadata_from_crossref (env : Option CrossrefMsg) (doi : Str) : Option Metadata :=
  match env with
  | none => none
  | some m =>
    some
      { doi := doi
        title := m.title.headD []
        authors := (m.author.getD []).filterMap (fun a => a.family.map Author.str)
        year := crossrefYear m
        journal := m.containerTitle.headD []
        volume := []
        issue := []
        pages := []
        category := m.subject.headD []
        subjects := []
        source := "crossref".toList }

/-- The fields of an OpenAlex work object read by
get_metadata_from_openalex.  authorDisplayNames lists the display_name
of each authorship whose author and display_name keys are present, in
order.  journalName is the already-resolved primary_location source
display_name (falling back to host_venue display_name) when truthy.
subjectNames is the already-computed list of concept/topic display
names selected by the score threshold (the floating-point scoring is
treated as resolved input).  A null title is modelled as an absent key
(both are falsy downstream). -/
structure OpenAlexResp where
  title : Option Str
  authorDisplayNames : List Str
  publicationDate : Option Str
  publicationYear : Option Nat
  journalName : Option Str
  volume : Option Str
  issue : Option Str
  firstLastPage : Option (Str × Str)
  subjectNames : List Str
deriving DecidableEq

/-- The author-record construction of get_metadata_from_openalex
(lines 316-324): split the display name, last word is the family name,
the earlier words joined are the given name, and the full name is kept. -/
def openalexAuthor (nm : Str) : Author :=
  let parts := pySplit nm
  let family := if parts.length > 0 then parts.getLastD [] else nm
  let given := if parts.length > 1 then spaceJoin parts.dropLast else []
  .dict (some family) (some given) (some nm)

/-- pdf_metadata_extractor.get_metadata_from_openalex (lines 260-409).
none models a request exception or a non-200/404 response.  The final
dictionary carries a subjects list and has its category key deleted
(modelled as the empty string). -/
def get_metadata_from_openalex (env : Option OpenAlexResp) (doi : Str) : Option Metadata :=
  match env with
  | none => none
  | some r =>
    some
      { doi := doi
        title := r.title.getD []
        authors := r.authorDisplayNames.map openalexAuthor
        year :=
          match r.publicationDate with
          | some d =>
            if d ≠ [] then d.takeWhile (fun c => c ≠ '-')
            else match r.publicationYear with
                 | some y => natDigits y
                 | none => []
          | none =>
            match r.publicationYear with
            | some y => natDigits y
            | none => []
        journal := r.journalName.getD []
        volume := r.volume.getD []
        issue := r.issue.getD []
        pages :=
          match r.firstLastPage with
          | some fl => fl.1 ++ ['-'] ++ fl.2
          | none => []
        category := []
        subjects := r.subjectNames
        source := "openalex".toList }

/-- One element of the DataCite creators array: the adapter reads the
optional name and familyName keys. -/
structure DCCreator where
  name : Option Str
  familyName : Option Str
deriving DecidableEq

/-- One DataCite container object (attributes.container). -/
structure DCContainer where
  title : Option Str
  volume : Option Str
  issue : Option Str
  firstLastPage : Option (Str × Str)
deriving DecidableEq

/-- The fields of the DataCite attributes object read by
get_metadata_from_datacite.  titles and subjects list the optional
title/subject key of each element; creators is some when the creators
key is present. -/
structure DataCiteAttrs where
  titles : List (Option Str)
  creators : Option (List DCCreator)
  publicationYear : Option Nat
  container : Option DCContainer
  subjects : List (Option Str)
deriving DecidableEq

/-- The creator-name extraction of get_metadata_from_datacite
(lines 462-471): the text before the first comma of the name key,
stripped; otherwise the familyName key; otherwise the creator is
skipped. -/
def dcCreatorName (c : DCCreator) : Option Str :=
  match c.name with
  | some n => some (pyStrip (breakAtComma n).1)
  | none => c.familyName

/-- pdf_metadata_extractor.get_metadata_from_datacite (lines 412-500).
none models a request exception, a non-200 response or a payload
without data.attributes.  Authors are bare strings; the dictionary has
no subjects key (empty list). -/
def get_metadata_from_datacite (env : Option DataCiteAttrs) (doi : Str) : Option Metadata :=
  match env with
  | none => none
  | some a =>
    some
      { doi := doi
        title :=
          match a.titles.head? with
          | some (some t) => t
          | _ => []
        authors := (a.creators.getD []).filterMap (fun c => (dcCreatorName c).map Author.str)
        year :=
          match a.publicationYear with
          | some y => natDigits y
          | none => []
        journal := (a.container.map (fun c => c.title.getD [])).getD []
        volume := ((a.container.bind DCContainer.volume).getD [])
        issue := ((a.container.bind DCContainer.issue).getD [])
        pages :=
          match a.container.bind DCContainer.firstLastPage with
          | some fl => fl.1 ++ ['-'] ++ fl.2
          | none => []
        category :=
          match a.subjects.head? with
          | some (some s) => s
          | _ => []
        subjects := []
        source := "datacite".toList }

/-- The fields of the first Europe PMC search result read by
get_metadata_from_europepmc.  authorLastNames is some when the
authorList and its author key are present, listing each author entry
with its optional lastName; keyword is some when keywordList and its
keyword key are present. -/
structure EPMCResult where
  title : Option Str
  authorLastNames : Option (List (Option Str))
  pubYear : Option Str
  journalTitle : Option Str
  journalVolume : Option Str
  journalIssue : Option Str
  pageInfo : Option Str
  keyword : Option (List Str)
deriving DecidableEq

/-- The Europe PMC response: the resultList.result array (empty or
missing arrays are both falsy and make the adapter return None). -/
structure EPMCResp where
  results : List EPMCResult
deriving DecidableEq

/-- pdf_metadata_extractor.get_metadata_from_europepmc (lines 503-584).
none models a request exception, a non-200 response or an empty result
list.  A present keywordList whose keyword array is empty raises an
IndexError at result keywordList keyword index 0, which the blanket
except turns into None. -/
def get_metadata_from_europepmc (env : Option EPMCResp) (doi : Str) : Option Metadata :=
  match env with
  | none => none
  | some resp =>
    match resp.results with
    | [] => none
    | r :: _ =>
      match r.keyword with
      | some [] => none
      | kw =>
        some
          { doi := doi
            title := r.title.getD []
            authors := (r.authorLastNames.getD []).filterMap (fun a => a.map Author.str)
            year := r.pubYear.getD []
            journal := r.journalTitle.getD []
            volume := r.journalVolume.getD []
            issue := r.journalIssue.getD []
            pages := r.pageInfo.getD []
            category :=
              match kw with
              | some (k :: _) => k
              | _ => []
            subjects := []
            source := "europepmc".toList }

/-- The journal object of a Semantic Scholar response. -/
structure SSJournal where
  name : Option Str
  volume : Option Str
  issue : Option Str
deriving DecidableEq

/-- One element of the Semantic Scholar topics array (its optional name
key). -/
structure SSTopic where
  name : Option Str
deriving DecidableEq

/-- The fields of a Semantic Scholar paper object read by
get_metadata_from_semantic_scholar.  authors is some when the authors
key is present, listing each element with its optional name key;
journal is some when the journal key is present with an object value
(a JSON-null journal is outside the model); fieldsOfStudy is the list
when present and non-null, otherwise empty. -/
structure SSResp where
  title : Option Str
  authors : Option (List (Option Str))
  year : Option Nat
  journal : Option SSJournal
  venue : Option Str
  fieldsOfStudy : List Str
  topics : List SSTopic
deriving DecidableEq

/-- The author loop of get_metadata_from_semantic_scholar
(lines 754-762): take the last whitespace-separated word of each
present name; a name with no words raises an IndexError, turned into
None by the blanket except. -/
def ssAuthors : List (Option Str) → Option (List Author)
  | [] => some []
  | none :: rest => ssAuthors rest
  | some nm :: rest =>
    match (pySplit nm).getLast? with
    | none => none
    | some last => (ssAuthors rest).map (fun r => Author.str last :: r)

/-- Configuration state loaded from api_keys.json, as consumed by the
adapters and the multi-source dispatcher (defaults already resolved). -/
structure ApiConfig where
  openalexEnabled : Bool
  crossrefEnabled : Bool
  dataciteEnabled : Bool
  europepmcEnabled : Bool
  semanticScholarEnabled : Bool
  scopusEnabled : Bool
  scopusApiKey : Str
  unpaywallEnabled : Bool
  unpaywallEmail : Str
deriving DecidableEq

/-- pdf_metadata_extractor.get_metadata_from_semantic_scholar
(lines 695-791).  The adapter itself returns None when disabled in the
configuration; env none models a request exception or non-200
response. -/
def get_metadata_from_semantic_scholar (cfg : ApiConfig) (env : Option SSResp) (doi : Str) :
    Option Metadata :=
  if !cfg.semanticScholarEnabled then none
  else
    match env with
    | none => none
    | some r =>
      match ssAuthors (r.authors.getD []) with
      | none => none
      | some authors =>
        let categoryResult : Option Str :=
          match r.fieldsOfStudy with
          | f :: _ => some f
          | [] =>
            match r.topics with
            | [] => some []
            | t :: _ =>
              match t.name with
              | some n => some n
              | none => none
        match categoryResult with
        | none => none
        | some category =>
          some
            { doi := doi
              title := r.title.getD []
              authors := authors
              year :=
                match r.year with
                | some y => natDigits y
                | none => []
              journal :=
                match r.journal with
                | some j => j.name.getD []
                | none => r.venue.getD []
              volume :=
                match r.journal with
                | some j => j.volume.getD []
                | none => []
              issue :=
                match r.journal with
                | some j => j.issue.getD []
                | none => []
              pages := []
              category := category
              subjects := []
              source := "semantic_scholar".toList }

/-- One element of the Scopus subject-area array (its optional dollar
key holding the area name). -/
structure ScopusArea where
  dollarName : Option Str
deriving DecidableEq

/-- The fields of the Scopus abstracts-retrieval-response read by
get_metadata_from_scopus, with the coredata nesting flattened (an
absent coredata key behaves as every flattened field absent).
surnames is some when authors.author is present, listing each element
with its optional ce:surname; subjectAreas is some when subject-areas
and its subject-area key are present. -/
structure ScopusResp where
  title : Option Str
  surnames : Option (List (Option Str))
  coverDate : Option Str
  publicationName : Option Str
  volume : Option Str
  issue : Option Str
  pageRange : Option Str
  subjectAreas : Option (List ScopusArea)
deriving DecidableEq

/-- pdf_metadata_extractor.get_metadata_from_scopus (lines 587-692).
Returns None when disabled or keyless; env none models a request
exception, a non-2xx response or a payload without
abstracts-retrieval-response.  A first subject-area element without a
dollar key raises a KeyError, turned into None by the blanket
except. -/
def get_metadata_from_scopus (cfg : ApiConfig) (env : Option ScopusResp) (doi : Str) :
    Option Metadata :=
  if !cfg.scopusEnabled then none
  else if cfg.scopusApiKey = [] then none
  else
    match env with
    | none => none
    | some r =>
      let categoryResult : Option Str :=
        match r.subjectAreas with
        | none => some []
        | some [] => some []
        | some (a :: _) =>
          match a.dollarName with
          | some s => some s
          | none => none
      match categoryResult with
      | none => none
      | some category =>
        some
          { doi := doi
            title := r.title.getD []
            authors := (r.surnames.getD []).filterMap (fun a => a.map Author.str)
            year :=
              match r.coverDate with
              | some d => d.takeWhile (fun c => c ≠ '-')
              | none => []
            journal := r.publicationName.getD []
            volume := r.volume.getD []
            issue := r.issue.getD []
            pages := r.pageRange.getD []
            category := category
            subjects := []
            source := "scopus".toList }

/-- The fields of an Unpaywall response read by
get_metadata_from_unpaywall (it reads no author and no category
information; a null title or year value is outside the model). -/
structure UnpaywallResp where
  title : Option Str
  year : Option Nat
  journalName : Option Str
  journalVolume : Option Str
  journalIssue : Option Str
deriving DecidableEq

/-- pdf_metadata_extractor.get_metadata_from_unpaywall (lines 794-870).
Returns None when disabled or without a configured email; env none
models a request exception or a non-200 response. -/
def get_metadata_from_unpaywall (cfg : ApiConfig) (env : Option UnpaywallResp) (doi : Str) :
    Option Metadata :=
  if !cfg.unpaywallEnabled then none
  else if cfg.unpaywallEmail = [] then none
  else
    match env with
    | none => none
    | some r =>
      some
        { doi := doi
          title := r.title.getD []
          authors := []
          year :=
            match r.year with
            | some y => natDigits y
            | none => []
          journal := r.journalName.getD []
          volume := r.journalVolume.getD []
          issue := r.journalIssue.getD []
          pages := []
          category := []
          subjects := []
          source := "unpaywall".toList }

/-- The per-source network responses available to one resolution call
(none models any failure the adapter catches). -/
structure ApiEnv where
  openalex : Option OpenAlexResp
  crossref : Option CrossrefMsg
  datacite : Option DataCiteAttrs
  europepmc : Option EPMCResp
  semanticScholar : Option SSResp
  scopus : Option ScopusResp
  unpaywall : Option UnpaywallResp
deriving DecidableEq

/-- One stage of get_metadata_from_multiple_sources: when the gate is
enabled and the adapter result is truthy with a truthy title, return
it, otherwise fall through to the next stage. -/
def tryTitled (gate : Bool) (r : Option Metadata) (next : Option Metadata) : Option Metadata :=
  if gate then
    match r with
    | some md => if md.title ≠ [] then some md else next
    | none => next
  else next

/-- pdf_metadata_extractor.get_metadata_from_multiple_sources
(lines 873-975): the fixed priority chain openalex, crossref, datacite,
europepmc, semantic_scholar, scopus (also gated on a configured key),
unpaywall (also gated on a configured email). -/
def get_metadata_from_multiple_sources (cfg : ApiConfig) (env : ApiEnv) (doi : Str) :
    Option Metadata :=
  tryTitled cfg.openalexEnabled (get_metadata_from_openalex env.openalex doi)
   (tryTitled cfg.crossrefEnabled (get_metadata_from_crossref env.crossref doi)
    (tryTitled cfg.dataciteEnabled (get_metadata_from_datacite env.datacite doi)
     (tryTitled cfg.europepmcEnabled (get_metadata_from_europepmc env.europepmc doi)
      (tryTitled cfg.semanticScholarEnabled (get_metadata_from_semantic_scholar cfg env.semanticScholar doi)
       (tryTitled (cfg.scopusEnabled && cfg.scopusApiKey ≠ []) (get_metadata_from_scopus cfg env.scopus doi)
        (tryTitled (cfg.unpaywallEnabled && cfg.unpaywallEmail ≠ []) (get_metadata_from_unpaywall cfg env.unpaywall doi)
         none))))))

/-- The backup step of PDFProcessor.process_file (pdf_renamer.py
lines 249-263), acting on the backup directory contents, modelled as a
map from file name to an optional content stamp.  Faithful to the
source: shutil.copy2 is executed only inside the
backup_path.exists() branch. -/
def backupStep (createBackups haveBackupDir : Bool) (backupDir : Str → Option Nat)
    (name : Str) (content : Nat) : Str → Option Nat :=
  if createBackups && haveBackupDir then
    if (backupDir name).isSome then
      fun n => if n = name then some content else backupDir n
    else backupDir
  else backupDir

/-- Result of the quarantine helper: whether the original file is still
at its source path and whether a fresh copy was created in the
problematic directory. -/
structure QuarResult where
  originalRemains : Bool
  copyCreated : Bool
deriving DecidableEq

/-- PDFProcessor._move_to_problematic (pdf_renamer.py lines 623-645).
The filesystem outcomes of ensure_dir, shutil.copy2 and Path.unlink are
environment flags; every raised exception is caught by the handlers at
lines 638-645 and leaves the state as it was at that point. -/
def moveToProblematic (moveEnabled dirConfigured ensureDirOk targetExists copyOk unlinkOk : Bool) :
    QuarResult :=
  if !(moveEnabled && dirConfigured) then ⟨true, false⟩
  else if !ensureDirOk then ⟨true, false⟩
  else if targetExists then ⟨true, false⟩
  else if !copyOk then ⟨true, false⟩
  else if unlinkOk then ⟨false, true⟩
  else ⟨true, true⟩

/-- The quarantine target name f-string of line 630:
ERROR_ reason _ original name. -/
def problematicName (reasonTag fileName : Str) : Str :=
  "ERROR_".toList ++ reasonTag ++ ['_'] ++ fileName

/-- The collision-suffixed candidate name of process_file line 286:
base _ counter extension. -/
def suffixedName (base ext : Str) (k : Nat) : Str :=
  base ++ '_' :: (natDigits k ++ ext)

/-- The while loop of process_file lines 281-287: while the candidate
name exists in the destination, try base _ counter extension with the
counter incremented.  Fuel-based so that it reduces in the kernel; the
caller supplies enough fuel. -/
def collisionLoop (existing : List Str) (base ext : Str) : Nat → Str → Nat → Str
  | 0, temp, _ => temp
  | f+1, temp, counter =>
    if temp ∈ existing then
      collisionLoop existing base ext f (suffixedName base ext counter) (counter + 1)
    else temp

/-- The collision-free target name chosen by process_file lines 279-288
for destination directory contents `existing`: the plain base ++ ext
when free, else the first free suffixed name. -/
def resolveTargetName (existing : List Str) (base ext : Str) : Str :=
  collisionLoop existing base ext (existing.length + 1) (base ++ ext) 1

example : resolveTargetName ["a.pdf".toList] "a".toList ".pdf".toList = "a_1.pdf".toList := by decide
example : resolveTargetName ["a.pdf".toList, "a_1.pdf".toList] "a".toList ".pdf".toList
    = "a_2.pdf".toList := by decide

/-- The four categorization axes. -/
inductive Axis
  | journal
  | author
  | year
  | subject
deriving DecidableEq

/-- The four independent categorization toggles. -/
structure CategorizeOptions where
  byJournal : Bool
  byAuthor : Bool
  byYear : Bool
  bySubject : Bool
deriving DecidableEq

/-- The author-axis extraction of categorize_file (pdf_renamer.py
lines 561-565): when authors is truthy, read the family key of the
first entry with default UnknownAuthor; on a bare-string entry the
.get attribute access raises (modelled as error), which process_file
only catches at its top level. -/
def authorAxisValue (opts : CategorizeOptions) (authors : List Author) :
    Except Unit (List (Axis × Str)) :=
  if opts.byAuthor then
    match authors with
    | [] => .ok []
    | .dict f _ _ :: _ => .ok [(Axis.author, sanitize_filename (f.getD "UnknownAuthor".toList))]
    | .str _ :: _ => .error ()
  else .ok []

/-- The category_values extraction of categorize_file (lines 556-577),
in the insertion order journal, author, year, subject.  An axis whose
metadata value is falsy contributes nothing. -/
def categoryValues (opts : CategorizeOptions) (md : Metadata) :
    Except Unit (List (Axis × Str)) :=
  match authorAxisValue opts md.authors with
  | .error e => .error e
  | .ok av =>
    .ok ((if opts.byJournal && md.journal ≠ [] then
            [(Axis.journal, sanitize_filename md.journal)] else [])
      ++ av
      ++ (if opts.byYear && md.year ≠ [] then [(Axis.year, md.year)] else [])
      ++ (if opts.bySubject && md.subjects ≠ [] then
            [(Axis.subject, sanitize_filename (md.subjects.headD []))] else []))

/-- The copy loop of categorize_file (lines 580-614): one copy of the
renamed file per extracted axis value, into by_axis / folder /
target_filename, skipping empty folder names. -/
def categorizeCopies (opts : CategorizeOptions) (md : Metadata) (targetFilename : Str) :
    Except Unit (List (Axis × Str × Str)) :=
  match categoryValues opts md with
  | .error e => .error e
  | .ok vals => .ok ((vals.filter (fun v => v.2 ≠ [])).map (fun v => (v.1, v.2, targetFilename)))

/-- Abstract syntax for the fragment of Python regular expressions used
by the five DOI patterns of extract_doi: literals (matched
case-insensitively, modelling re.IGNORECASE), character classes, greedy
class repetition with a minimum count, sequencing, ordered alternation,
an optional piece, and the one non-class star of the patterns, the
group dot-digits repeated (handled by a dedicated constructor so the
matcher stays structurally recursive). -/
inductive RE
  | eps
  | lit (s : Str)
  | cls (p : Char → Bool)
  | rep (p : Char → Bool) (mn : Nat)
  | dotDigitsStar
  | seq (a b : RE)
  | alt (a b : RE)
  | opt (a : RE)

/-- Case-insensitive prefix test for a literal. -/
def litMatch : Str → Str → Bool
  | [], _ => true
  | _ :: _, [] => false
  | c :: cs, d :: ds => (c.toLower = d.toLower) && litMatch cs ds

/-- First continuation success over a list of candidate remainders, in
order: the backtracking preference order of the Python engine. -/
def reFirst (cands : List Str) (k : Str → Option Str) : Option Str :=
  match cands with
  | [] => none
  | c :: rest =>
    match k c with
    | some r => some r
    | none => reFirst rest k

/-- Candidate remainders for a greedy class repetition with minimum
count mn: longest consumption first, down to mn characters. -/
def repCands (p : Char → Bool) (mn : Nat) (input : Str) : List Str :=
  let m := (input.takeWhile p).length
  if m < mn then []
  else (List.range (m - mn + 1)).map (fun i => input.drop (m - i))

/-- Candidate remainders, in backtracking preference order, for the
greedy star over the group dot-then-digits: more iterations are
preferred, and within one iteration a longer digit run is preferred.
Fuel bounds the recursion (two characters are consumed per iteration,
so the input length is enough fuel). -/
def dotDigitsStarCands : Nat → Str → List Str
  | 0, s => [s]
  | f+1, s =>
    match s with
    | '.' :: rest =>
      let m := (rest.takeWhile Char.isDigit).length
      if m = 0 then [s]
      else
        (List.flatten ((List.range m).map (fun i => dotDigitsStarCands f (rest.drop (m - i))))) ++ [s]
    | _ => [s]

/-- Backtracking matcher in continuation-passing style: attempts to
match the pattern at the head of the input, invoking the continuation
on each candidate remainder in the preference order of the Python
engine, and returns the first overall success. -/
def matchRE : RE → Str → (Str → Option Str) → Option Str
  | .eps, input, k => k input
  | .lit s, input, k => if litMatch s input then k (input.drop s.length) else none
  | .cls _, [], _ => none
  | .cls p, c :: rest, k => if p c then k rest else none
  | .rep p mn, input, k => reFirst (repCands p mn input) k
  | .dotDigitsStar, input, k => reFirst (dotDigitsStarCands input.length input) k
  | .seq a b, input, k => matchRE a input (fun r => matchRE b r k)
  | .alt a b, input, k =>
    match matchRE a input k with
    | some r => some r
    | none => matchRE b input k
  | .opt a, input, k =>
    match matchRE a input k with
    | some r => some r
    | none => k input

/-- The span matched at the current position, if any: whole-match text
(group 0). -/
def matchSpan (re : RE) (s : Str) : Option Str :=
  match matchRE re s (fun rem => some rem) with
  | some rem => some (s.take (s.length - rem.length))
  | none => none

/-- re.search scanning from positions after the start of the text. -/
def reSearchFrom (re : RE) : Str → Option Str
  | [] => matchSpan re []
  | s@(_ :: rest) =>
    match matchSpan re s with
    | some g0 => some g0
    | none => reSearchFrom re rest

/-- re.search with distinct pattern views at position zero and at later
positions (the caret alternative of pattern four can only match at
position zero; for the other patterns the two views coincide). -/
def reSearch (reAt0 reLater : RE) (text : Str) : Option Str :=
  match matchSpan reAt0 text with
  | some g0 => some g0
  | none =>
    match text with
    | [] => none
    | _ :: rest => reSearchFrom reLater rest

/-- The DOI suffix character class of the patterns. -/
def doiSuffChar (c : Char) : Bool :=
  c.isAlphanum || c = '.' || c = '_' || c = '(' || c = ')' || c = '-' || c = '+' || c = '/'

/-- The common captured group of every DOI pattern:
10 dot digits-4-or-more, dot-digit groups, slash, suffix characters. -/
def doiBody : RE :=
  .seq (.lit "10.".toList)
    (.seq (.rep Char.isDigit 4)
      (.seq .dotDigitsStar
        (.seq (.cls (fun c => c = '/')) (.rep doiSuffChar 1))))

/-- Pattern 1 of extract_doi: doi.org slashes then the DOI body. -/
def doiPattern1 : RE :=
  .seq (.lit "doi.org".toList) (.seq (.rep (fun c => c = '/') 1) doiBody)

/-- Patterns 2 and 3 of extract_doi (identical under re.IGNORECASE):
the DOI: prefix, optional whitespace, then the DOI body. -/
def doiPattern2 : RE :=
  .seq (.lit "DOI:".toList) (.seq (.rep pyIsSpace 0) doiBody)

/-- Pattern 4 at positions after the start: one non-alphanumeric
character then the DOI body. -/
def doiPattern4Later : RE :=
  .seq (.cls (fun c => !c.isAlphanum)) doiBody

/-- Pattern 4 at position zero: the caret alternative matches the empty
string there, so the body alone is tried first, then the
non-alphanumeric prefix alternative. -/
def doiPattern4At0 : RE := .alt doiBody doiPattern4Later

/-- Pattern 5 of extract_doi: http, optional s, colon-slash-slash,
optional dx dot, doi.org, slashes, then the DOI body. -/
def doiPattern5 : RE :=
  .seq (.lit "http".toList)
    (.seq (.opt (.lit "s".toList))
      (.seq (.lit "://".toList)
        (.seq (.opt (.lit "dx.".toList))
          (.seq (.lit "doi.org".toList) (.seq (.rep (fun c => c = '/') 1) doiBody)))))

/-- The pattern loop of extract_doi (lines 121-126) and of
extract_doi_with_ocr (lines 169-174): the first pattern that matches
wins, and the returned value is the stripped whole match (group 0,
including any doi.org or DOI: prefix the pattern consumed). -/
def doiPatternSearch (text : Str) : Option Str :=
  match reSearch doiPattern1 doiPattern1 text with
  | some g0 => some (pyStrip g0)
  | none =>
    match reSearch doiPattern2 doiPattern2 text with
    | some g0 => some (pyStrip g0)
    | none =>
      match reSearch doiPattern2 doiPattern2 text with
      | some g0 => some (pyStrip g0)
      | none =>
        match reSearch doiPattern4At0 doiPattern4Later text with
        | some g0 => some (pyStrip g0)
        | none =>
          match reSearch doiPattern5 doiPattern5 text with
          | some g0 => some (pyStrip g0)
          | none => none

example : doiPatternSearch "see doi.org/10.1234/ab-c end".toList
    = some "doi.org/10.1234/ab-c".toList := by decide
example : doiPatternSearch "x 10.1234.5/abc y".toList = some "10.1234.5/abc".toList := by decide
example : doiPatternSearch "no doi here".toList = none := by decide

/-- Why opening a PDF fails: an unreadable/corrupt document or a
password-protected one (the two cases the spec distinguishes). -/
inductive PdfOpenError
  | readError
  | encrypted
deriving DecidableEq

/-- The observable content of a successfully opened PDF:
the optional doi entry of its metadata dictionary (some for a present
key, possibly with a falsy empty value), the per-page extracted text
(none or empty both falsy), and the text an OCR pass would produce
(none when OCR is unavailable or fails). -/
structure PdfContent where
  metadataDoi : Option Str
  pages : List (Option Str)
  ocrText : Option Str
deriving DecidableEq

/-- A PDF file as the extractor sees it: opening either yields content
or raises. -/
structure PdfFile where
  opened : Except PdfOpenError PdfContent

/-- The page-text concatenation of extract_doi lines 113-118: the first
five pages, truthy page texts concatenated each followed by a
newline. -/
def pagesText (pages : List (Option Str)) : Str :=
  List.flatten (((pages.take 5).filterMap id).filterMap
    (fun t => if t = [] then none else some (t ++ ['\n'])))

/-- pdf_metadata_extractor.extract_doi_with_ocr (lines 141-181): run
the same pattern list over the OCR text; no text (OCR unavailable,
conversion failure) gives None. -/
def extract_doi_with_ocr (ocrText : Option Str) : Option Str :=
  match ocrText with
  | none => none
  | some t => doiPatternSearch t

/-- pdf_metadata_extractor.extract_doi (lines 82-138).  The blanket
except at lines 136-138 turns every open failure (unreadable and
encrypted documents alike) into a plain None return; a truthy metadata
doi entry is returned verbatim; otherwise the whole match of the first
matching pattern, stripped, is returned; the OCR fallback runs only
when no text at all was extracted. -/
def extract_doi (pdf : PdfFile) (useOcr ocrAvailable : Bool) : Option Str :=
  match pdf.opened with
  | .error _ => none
  | .ok content =>
    match content.metadataDoi with
    | some d =>
      if d ≠ [] then some d
      else
        let text := pagesText content.pages
        match doiPatternSearch text with
        | some doi => some doi
        | none =>
          if pyStrip text = [] && useOcr && ocrAvailable then
            extract_doi_with_ocr content.ocrText
          else none
    | none =>
      let text := pagesText content.pages
      match doiPatternSearch text with
      | some doi => some doi
      | none =>
        if pyStrip text = [] && useOcr && ocrAvailable then
          extract_doi_with_ocr content.ocrText
        else none

/-- The terminal tags process_file can attach to a file (the subset
relevant to DOI extraction). -/
inductive DoiStageOutcome
  | proceedWithDoi (doi : Str)
  | quarantineMissingDoi
  | quarantinePdfReadError
  | quarantinePdfEncryptedError
deriving DecidableEq

/-- The DOI-extraction stage of PDFProcessor.process_file (pdf_renamer.py
lines 190-213) as the code behaves: extract_doi never raises, so the
except pdf_extractor.PDFReadError / PDFEncryptedError handlers at
lines 193-201 are unreachable (those classes are not defined anywhere
in the module) and a None result is always tagged Missing_DOI. -/
def doiExtractionStage (pdf : PdfFile) (useOcr ocrAvailable : Bool) : DoiStageOutcome :=
  match extract_doi pdf useOcr ocrAvailable with
  | some doi => .proceedWithDoi doi
  | none => .quarantineMissingDoi

/-- C1: the claim says an unreadable document raises a distinct Read
error and an encrypted document a distinct Encrypted error, both
propagating to the caller.  The code instead catches every exception
inside extract_doi and returns None, so both failure kinds collapse
into the normal no-DOI-found result and the caller tags the file
Missing_DOI; this theorem evaluates the code at the failing inputs. -/
theorem claim_C1_open_errors_swallowed_to_none :
    ∀ (e : PdfOpenError) (useOcr ocrAvailable : Bool),
      extract_doi ⟨.error e⟩ useOcr ocrAvailable = none ∧
      doiExtractionStage ⟨.error e⟩ useOcr ocrAvailable = DoiStageOutcome.quarantineMissingDoi := by
  intro e u o
  exact ⟨rfl, rfl⟩

/-- C3: the claim says a copy of the original is written to the backup
directory before the move, overwriting any same-named backup.  In the
code the shutil.copy2 call sits inside the backup_path.exists() branch,
so on a first-ever backup (no same-named file present) nothing is
copied at all; a copy is written only when an old backup already
exists.  This theorem evaluates the backup step at both inputs. -/
theorem claim_C3_backup_copy_only_when_old_backup_exists :
    backupStep true true (fun _ => none) "paper.pdf".toList 7 "paper.pdf".toList = none ∧
    backupStep true true (fun n => if n = "paper.pdf".toList then some 1 else none)
      "paper.pdf".toList 7 "paper.pdf".toList = some 7 := by
  decide

/-- C4: in the quarantine helper the original is deleted only after the
copy into the problematic directory succeeded, and whenever the copy
fails the original remains in place with no copy created. -/
theorem claim_C4_never_delete_without_copy :
    ∀ (m d e t c u : Bool),
      ((!(moveToProblematic m d e t c u).originalRemains) ≤
        (c && (moveToProblematic m d e t c u).copyCreated)) ∧
      moveToProblematic m d e t false u = ⟨true, false⟩ := by
  decide

/-- C6: the claim says every DOI string returned by extract_doi starts
with 10. in canonical form.  The code returns matches.group(0), the
whole match including the doi.org or DOI: prefix the pattern consumed
(the capture group isolating the 10. part is never read), and returns
a metadata doi entry verbatim without validation; this theorem
evaluates the code at both failing inputs. -/
theorem claim_C6_returned_doi_keeps_prefix :
    extract_doi ⟨.ok ⟨none, [some "see doi.org/10.1234/abc here".toList], none⟩⟩ false false
        = some "doi.org/10.1234/abc".toList ∧
    "doi.org/10.1234/abc".toList.take 3 ≠ "10.".toList ∧
    extract_doi ⟨.ok ⟨some "doi:10.99/z".toList, [], none⟩⟩ false false
        = some "doi:10.99/z".toList ∧
    "doi:10.99/z".toList.take 3 ≠ "10.".toList := by
  refine ⟨by decide, by decide, by decide, by decide⟩

/-- A metadata value whose journal field is empty (categorization by
journal enabled finds nothing to use). -/
def mdNoJournal : Metadata :=
  { doi := "10.1/x".toList
    title := "T".toList
    authors := []
    year := "2020".toList
    journal := []
    volume := []
    issue := []
    pages := []
    category := []
    subjects := []
    source := "crossref".toList }

/-- Categorization by journal only. -/
def optsJournalOnly : CategorizeOptions := ⟨true, false, false, false⟩

/-- C5 counterexample: with by-journal categorization enabled and an
empty journal value, the claim demands a copy into the by_journal
uncategorized subfolder; the code performs no copy at all for that
file (the axis is skipped, no uncategorized folder exists anywhere in
the source). -/
theorem claim_C5_counterexample_empty_journal_no_copy :
    categorizeCopies optsJournalOnly mdNoJournal "f.pdf".toList = .ok [] := by
  rfl

/-- Every axis entry produced by the author-axis extraction carries the
author axis tag and, on success, the entries come from a truthy author
list. -/
theorem authorAxisValue_tags (opts : CategorizeOptions) (authors : List Author)
    (av : List (Axis × Str)) (h : authorAxisValue opts authors = .ok av) :
    ∀ v ∈ av, v.1 = Axis.author := by
  unfold authorAxisValue at h
  split at h
  · match authors, h with
    | [], h => cases h; simp
    | .dict f g n :: rest, h => cases h; simp
  · cases h; simp


/-- On an empty author list the author-axis extraction succeeds with no
entries. -/
theorem authorAxisValue_nil (opts : CategorizeOptions) (av : List (Axis × Str))
    (h : authorAxisValue opts [] = .ok av) : av = [] := by
  unfold authorAxisValue at h
  split at h <;> cases h <;> rfl

/-- Membership in a conditional singleton list yields the condition and
equality with the element. -/
theorem mem_cond_singleton {α : Type} {b : Prop} [Decidable b] {x v : α}
    (h : v ∈ (if b then [x] else [])) : b ∧ v = x := by
  split at h
  · next hb => simp_all
  · simp at h

/-- C5 amended: when an enabled categorization axis derives a missing
or empty value from the metadata, that axis is skipped outright — no
copy is performed for it and every copy that is performed uses a
nonempty folder value; there is no uncategorized subfolder. -/
theorem claim_C5_amended_empty_axis_skipped :
    ∀ (opts : CategorizeOptions) (md : Metadata) (fname : Str)
      (copies : List (Axis × Str × Str)),
      categorizeCopies opts md fname = .ok copies →
      (∀ c ∈ copies, c.2.1 ≠ []) ∧
      (md.journal = [] → ∀ c ∈ copies, c.1 ≠ Axis.journal) ∧
      (md.authors = [] → ∀ c ∈ copies, c.1 ≠ Axis.author) ∧
      (md.year = [] → ∀ c ∈ copies, c.1 ≠ Axis.year) ∧
      (md.subjects = [] → ∀ c ∈ copies, c.1 ≠ Axis.subject) := by
  intro opts md fname copies h
  unfold categorizeCopies at h
  cases hv : categoryValues opts md with
  | error e => rw [hv] at h; cases h
  | ok vals =>
    rw [hv] at h
    cases h
    unfold categoryValues at hv
    cases hav : authorAxisValue opts md.authors with
    | error e => rw [hav] at hv; cases hv
    | ok av =>
      rw [hav] at hv
      cases hv
      have htag := authorAxisValue_tags opts md.authors av hav
      refine ⟨?_, ?_, ?_, ?_, ?_⟩
      · intro c hc
        simp only [List.mem_map, List.mem_filter] at hc
        obtain ⟨v, ⟨_, hv2⟩, rfl⟩ := hc
        simpa using hv2
      · intro hj c hc
        simp only [List.mem_map, List.mem_filter] at hc
        obtain ⟨v, ⟨hvmem, _⟩, rfl⟩ := hc
        have flat := (by simpa [List.mem_append, or_assoc] using hvmem :
          v ∈ (if opts.byJournal && md.journal ≠ [] then
                [(Axis.journal, sanitize_filename md.journal)] else []) ∨
          v ∈ av ∨
          v ∈ (if opts.byYear && md.year ≠ [] then [(Axis.year, md.year)] else []) ∨
          v ∈ (if opts.bySubject && md.subjects ≠ [] then
                [(Axis.subject, sanitize_filename (md.subjects.headD []))] else []))
        rcases flat with hjj | ha | hy | hs
        · obtain ⟨hcond, rfl⟩ := mem_cond_singleton hjj
          simp [hj] at hcond
        · rw [htag v ha]; simp
        · obtain ⟨_, rfl⟩ := mem_cond_singleton hy; simp
        · obtain ⟨_, rfl⟩ := mem_cond_singleton hs; simp
      · intro hj c hc
        simp only [List.mem_map, List.mem_filter] at hc
        obtain ⟨v, ⟨hvmem, _⟩, rfl⟩ := hc
        have hanil : av = [] := by
          rw [hj] at hav; exact authorAxisValue_nil opts av hav
        subst hanil
        have flat := (by simpa [List.mem_append, or_assoc] using hvmem :
          v ∈ (if opts.byJournal && md.journal ≠ [] then
                [(Axis.journal, sanitize_filename md.journal)] else []) ∨
          v ∈ (if opts.byYear && md.year ≠ [] then [(Axis.year, md.year)] else []) ∨
          v ∈ (if opts.bySubject && md.subjects ≠ [] then
                [(Axis.subject, sanitize_filename (md.subjects.headD []))] else []))
        rcases flat with hjj | hy | hs
        · obtain ⟨_, rfl⟩ := mem_cond_singleton hjj; simp
        · obtain ⟨_, rfl⟩ := mem_cond_singleton hy; simp
        · obtain ⟨_, rfl⟩ := mem_cond_singleton hs; simp
      · intro hj c hc
        simp only [List.mem_map, List.mem_filter] at hc
        obtain ⟨v, ⟨hvmem, _⟩, rfl⟩ := hc
        have flat := (by simpa [List.mem_append, or_assoc] using hvmem :
          v ∈ (if opts.byJournal && md.journal ≠ [] then
                [(Axis.journal, sanitize_filename md.journal)] else []) ∨
          v ∈ av ∨
          v ∈ (if opts.byYear && md.year ≠ [] then [(Axis.year, md.year)] else []) ∨
          v ∈ (if opts.bySubject && md.subjects ≠ [] then
                [(Axis.subject, sanitize_filename (md.subjects.headD []))] else []))
        rcases flat with hjj | ha | hy | hs
        · obtain ⟨_, rfl⟩ := mem_cond_singleton hjj; simp
        · rw [htag v ha]; simp
        · obtain ⟨hcond, rfl⟩ := mem_cond_singleton hy
          simp [hj] at hcond
        · obtain ⟨_, rfl⟩ := mem_cond_singleton hs; simp
      · intro hj c hc
        simp only [List.mem_map, List.mem_filter] at hc
        obtain ⟨v, ⟨hvmem, _⟩, rfl⟩ := hc
        have flat := (by simpa [List.mem_append, or_assoc] using hvmem :
          v ∈ (if opts.byJournal && md.journal ≠ [] then
                [(Axis.journal, sanitize_filename md.journal)] else []) ∨
          v ∈ av ∨
          v ∈ (if opts.byYear && md.year ≠ [] then [(Axis.year, md.year)] else []) ∨
          v ∈ (if opts.bySubject && md.subjects ≠ [] then
                [(Axis.subject, sanitize_filename (md.subjects.headD []))] else []))
        rcases flat with hjj | ha | hy | hs
        · obtain ⟨_, rfl⟩ := mem_cond_singleton hjj; simp
        · rw [htag v ha]; simp
        · obtain ⟨_, rfl⟩ := mem_cond_singleton hy; simp
        · obtain ⟨hcond, rfl⟩ := mem_cond_singleton hs
          simp [hj] at hcond

/-- C5 amended witness: with by-journal and by-year enabled on metadata
with an empty journal and year 2020, the single copy performed is for
the year axis with a nonempty folder; no journal-axis copy occurs. -/
theorem claim_C5_amended_witness :
    (∀ c ∈ [(Axis.year, "2020".toList, "f.pdf".toList)], c.2.1 ≠ ([] : Str)) ∧
    (∀ c ∈ [(Axis.year, "2020".toList, "f.pdf".toList)], c.1 ≠ Axis.journal) := by
  have H := claim_C5_amended_empty_axis_skipped ⟨true, false, true, false⟩ mdNoJournal
    "f.pdf".toList [(Axis.year, "2020".toList, "f.pdf".toList)] (by rfl)
  exact ⟨H.1, H.2.1 rfl⟩

/-- Decimal value of a digit string: left fold with base ten. -/
def digitsVal (s : Str) : Nat := s.foldl (fun acc c => acc * 10 + (c.toNat - 48)) 0

/-- Appending one digit multiplies the value by ten and adds the
digit. -/
theorem digitsVal_append_digit (l : Str) (c : Char) :
    digitsVal (l ++ [c]) = digitsVal l * 10 + (c.toNat - 48) := by
  simp [digitsVal, List.foldl_append]

/-- The code of a decimal digit character. -/
theorem natDigitChar_toNat (d : Nat) (h : d < 10) : (natDigitChar d).toNat = 48 + d := by
  interval_cases d <;> decide

/-- With enough fuel the rendering evaluates back to the number. -/
theorem digitsVal_natDigitsAux : ∀ (f n : Nat), n ≤ f → digitsVal (natDigitsAux f n) = n := by
  intro f
  induction f with
  | zero =>
    intro n hn
    interval_cases n
    decide
  | succ f ih =>
    intro n hn
    by_cases h10 : n < 10
    · simp only [natDigitsAux, if_pos h10]
      have := natDigitChar_toNat n h10
      simp [digitsVal, this]
    · simp only [natDigitsAux, if_neg h10]
      rw [digitsVal_append_digit]
      have hdiv : n / 10 ≤ f := by omega
      rw [ih (n / 10) hdiv]
      have hm : n % 10 < 10 := Nat.mod_lt _ (by omega)
      rw [natDigitChar_toNat (n % 10) hm]
      omega

/-- Rendering is injective. -/
theorem natDigits_inj {a b : Nat} (h : natDigits a = natDigits b) : a = b := by
  have ha := digitsVal_natDigitsAux a a (le_refl a)
  have hb := digitsVal_natDigitsAux b b (le_refl b)
  unfold natDigits at h
  rw [h] at ha
  omega

/-- The rendering is never empty. -/
theorem natDigitsAux_ne_nil (f n : Nat) : natDigitsAux f n ≠ [] := by
  cases f with
  | zero => simp [natDigitsAux]
  | succ f =>
    simp only [natDigitsAux]
    split
    · simp
    · simp

/-- Distinct counters give distinct suffixed names. -/
theorem suffixedName_inj (base ext : Str) {j k : Nat}
    (h : suffixedName base ext j = suffixedName base ext k) : j = k := by
  unfold suffixedName at h
  have h1 := List.append_cancel_left h
  have h2 : natDigits j ++ ext = natDigits k ++ ext := by
    injection h1
  exact natDigits_inj (List.append_cancel_right h2)

/-- The unsuffixed name never equals a suffixed one. -/
theorem base_ne_suffixedName (base ext : Str) (k : Nat) :
    base ++ ext ≠ suffixedName base ext k := by
  intro h
  unfold suffixedName at h
  have h1 := List.append_cancel_left h
  have := congrArg List.length h1
  simp only [List.length_cons, List.length_append] at this
  have hne := natDigitsAux_ne_nil k k
  have : (natDigits k).length ≥ 1 := by
    cases hnd : natDigits k with
    | nil => exact absurd hnd hne
    | cons c cs => simp
  omega

/-- The collision loop never returns a name in the destination, as long
as one of the candidates it can check is free. -/
theorem collisionLoop_avoid (existing : List Str) (base ext : Str) :
    ∀ (f counter : Nat) (temp : Str),
      (temp ∉ existing ∨ ∃ i, i < f ∧ suffixedName base ext (counter + i) ∉ existing) →
      collisionLoop existing base ext (f + 1) temp counter ∉ existing := by
  intro f
  induction f with
  | zero =>
    intro counter temp h
    have htemp : temp ∉ existing := by
      rcases h with h | ⟨i, hi, _⟩
      · exact h
      · omega
    simp [collisionLoop, htemp]
  | succ f ih =>
    intro counter temp h
    by_cases htemp : temp ∈ existing
    · have hnext : suffixedName base ext counter ∉ existing ∨
          ∃ i, i < f ∧ suffixedName base ext (counter + 1 + i) ∉ existing := by
        rcases h with h | ⟨i, hi, hni⟩
        · exact absurd htemp h
        · cases i with
          | zero => left; simpa using hni
          | succ j =>
            right
            exact ⟨j, by omega, by rw [show counter + 1 + j = counter + (j + 1) by omega]; exact hni⟩
      have := ih (counter + 1) (suffixedName base ext counter) hnext
      simpa [collisionLoop, htemp] using this
    · simp [collisionLoop, htemp]

/-- C9: the target name chosen by the rename step is never a name
already present in the destination (no overwrite), the first collision
gets suffix _1 and the second collision suffix _2. -/
theorem claim_C9_collision_suffixes_never_overwrite :
    ∀ (existing : List Str) (base ext : Str),
      resolveTargetName existing base ext ∉ existing ∧
      resolveTargetName [base ++ ext] base ext = suffixedName base ext 1 ∧
      resolveTargetName [base ++ ext, suffixedName base ext 1] base ext
        = suffixedName base ext 2 := by
  intro existing base ext
  refine ⟨?_, ?_, ?_⟩
  · unfold resolveTargetName
    apply collisionLoop_avoid
    by_cases h0 : (base ++ ext) ∈ existing
    · right
      by_contra hall
      push_neg at hall
      set N := existing.length with hN
      set L := (base ++ ext) :: (List.range N).map (fun i => suffixedName base ext (1 + i))
        with hL
      have hnodup : L.Nodup := by
        rw [hL]
        refine List.Nodup.cons ?_ ?_
        · intro hmem
          simp only [List.mem_map, List.mem_range] at hmem
          obtain ⟨i, _, hi⟩ := hmem
          exact base_ne_suffixedName base ext (1 + i) hi.symm
        · refine List.Nodup.map ?_ (List.nodup_range N)
          intro i j hij
          have := suffixedName_inj base ext hij
          omega
      have hsub : L ⊆ existing := by
        rw [hL]
        intro x hx
        rcases List.mem_cons.mp hx with rfl | hx
        · exact h0
        · simp only [List.mem_map, List.mem_range] at hx
          obtain ⟨i, hiN, rfl⟩ := hx
          exact hall i hiN
      have hlen : L.length = N + 1 := by simp [hL]
      have := (List.subperm_of_subset hnodup hsub).length_le
      omega
    · exact Or.inl h0
  · have h2 : suffixedName base ext 1 ≠ base ++ ext := fun h =>
      base_ne_suffixedName base ext 1 h.symm
    simp [resolveTargetName, collisionLoop, h2]
  · have h2 : suffixedName base ext 1 ≠ base ++ ext := fun h =>
      base_ne_suffixedName base ext 1 h.symm
    have h3a : suffixedName base ext 2 ≠ base ++ ext := fun h =>
      base_ne_suffixedName base ext 2 h.symm
    have h3b : suffixedName base ext 2 ≠ suffixedName base ext 1 := by
      intro h
      have := suffixedName_inj base ext h
      omega
    simp [resolveTargetName, collisionLoop, h2, h3a, h3b]

/-- The truthy-title filter each dispatcher stage applies to its adapter
result. -/
def titledOf (r : Option Metadata) : Option Metadata :=
  match r with
  | some md => if md.title ≠ [] then some md else none
  | none => none

/-- A stage whose gate is off or whose result has no title falls
through. -/
theorem tryTitled_skip (g : Bool) (r next : Option Metadata)
    (h : g = true → titledOf r = none) : tryTitled g r next = next := by
  cases g
  · rfl
  · cases r with
    | none => rfl
    | some md =>
      have ht := h rfl
      by_cases hmt : md.title = []
      · simp [tryTitled, hmt]
      · simp [titledOf, hmt] at ht

/-- An enabled stage with a titled result returns it. -/
theorem tryTitled_hit (g : Bool) (r next : Option Metadata) (md : Metadata)
    (hg : g = true) (h : titledOf r = some md) : tryTitled g r next = some md := by
  subst hg
  cases r with
  | none => cases h
  | some md' =>
    by_cases hmt : md'.title = []
    · simp [titledOf, hmt] at h
    · simp only [titledOf, ne_eq, hmt, not_false_eq_true, if_pos, Option.some.injEq] at h
      subst h
      simp [tryTitled, hmt]

/-- A stage yields none exactly when it is skipped and the rest yields
none. -/
theorem tryTitled_none_iff (g : Bool) (r next : Option Metadata) :
    tryTitled g r next = none ↔ ((g = true → titledOf r = none) ∧ next = none) := by
  cases g
  · simp [tryTitled]
  · cases r with
    | none => simp [tryTitled, titledOf]
    | some md =>
      by_cases hmt : md.title = []
      · simp [tryTitled, titledOf, hmt]
      · simp [tryTitled, titledOf, hmt]

/-- The title filter yields none exactly when any produced metadata has
an empty title. -/
theorem titledOf_eq_none_iff (r : Option Metadata) :
    titledOf r = none ↔ ∀ md, r = some md → md.title = [] := by
  cases r with
  | none => simp [titledOf]
  | some md =>
    by_cases hmt : md.title = []
    · simp [titledOf, hmt]
    · simp [titledOf, hmt]

/-- The crossref adapter tags its result. -/
theorem crossref_source_tag (env : Option CrossrefMsg) (doi : Str) (md : Metadata)
    (h : get_metadata_from_crossref env doi = some md) : md.source = "crossref".toList := by
  unfold get_metadata_from_crossref at h
  cases env with
  | none => exact absurd h (by simp)
  | some m => dsimp only at h; cases h; rfl

/-- The openalex adapter tags its result. -/
theorem openalex_source_tag (env : Option OpenAlexResp) (doi : Str) (md : Metadata)
    (h : get_metadata_from_openalex env doi = some md) : md.source = "openalex".toList := by
  unfold get_metadata_from_openalex at h
  cases env with
  | none => exact absurd h (by simp)
  | some r => dsimp only at h; cases h; rfl

/-- The datacite adapter tags its result. -/
theorem datacite_source_tag (env : Option DataCiteAttrs) (doi : Str) (md : Metadata)
    (h : get_metadata_from_datacite env doi = some md) : md.source = "datacite".toList := by
  unfold get_metadata_from_datacite at h
  cases env with
  | none => exact absurd h (by simp)
  | some a => dsimp only at h; cases h; rfl

/-- The europepmc adapter tags its result. -/
theorem europepmc_source_tag (env : Option EPMCResp) (doi : Str) (md : Metadata)
    (h : get_metadata_from_europepmc env doi = some md) : md.source = "europepmc".toList := by
  unfold get_metadata_from_europepmc at h
  cases env with
  | none => exact absurd h (by simp)
  | some resp =>
    dsimp only at h
    split at h
    · cases h
    · split at h
      · cases h
      · cases h; rfl

/-- The semantic scholar adapter tags its result. -/
theorem semantic_scholar_source_tag (cfg : ApiConfig) (env : Option SSResp) (doi : Str)
    (md : Metadata) (h : get_metadata_from_semantic_scholar cfg env doi = some md) :
    md.source = "semantic_scholar".toList := by
  unfold get_metadata_from_semantic_scholar at h
  split at h
  · cases h
  · cases env with
    | none => exact absurd h (by simp)
    | some r =>
      dsimp only at h
      split at h
      · cases h
      · split at h
        · cases h
        · cases h; rfl

/-- The scopus adapter tags its result. -/
theorem scopus_source_tag (cfg : ApiConfig) (env : Option ScopusResp) (doi : Str)
    (md : Metadata) (h : get_metadata_from_scopus cfg env doi = some md) :
    md.source = "scopus".toList := by
  unfold get_metadata_from_scopus at h
  split at h
  · cases h
  · split at h
    · cases h
    · cases env with
      | none => exact absurd h (by simp)
      | some r =>
        dsimp only at h
        split at h
        · cases h
        · cases h; rfl

/-- The unpaywall adapter tags its result. -/
theorem unpaywall_source_tag (cfg : ApiConfig) (env : Option UnpaywallResp) (doi : Str)
    (md : Metadata) (h : get_metadata_from_unpaywall cfg env doi = some md) :
    md.source = "unpaywall".toList := by
  unfold get_metadata_from_unpaywall at h
  split at h
  · cases h
  · split at h
    · cases h
    · cases env with
      | none => exact absurd h (by simp)
      | some r => dsimp only at h; cases h; rfl

/-- The gate of each of the seven dispatcher stages, in priority
order. -/
def stageGate (cfg : ApiConfig) : Fin 7 → Bool
  | ⟨0, _⟩ => cfg.openalexEnabled
  | ⟨1, _⟩ => cfg.crossrefEnabled
  | ⟨2, _⟩ => cfg.dataciteEnabled
  | ⟨3, _⟩ => cfg.europepmcEnabled
  | ⟨4, _⟩ => cfg.semanticScholarEnabled
  | ⟨5, _⟩ => cfg.scopusEnabled && cfg.scopusApiKey ≠ []
  | ⟨6, _⟩ => cfg.unpaywallEnabled && cfg.unpaywallEmail ≠ []

/-- The adapter result of each of the seven dispatcher stages, in
priority order. -/
def stageResult (cfg : ApiConfig) (env : ApiEnv) (doi : Str) : Fin 7 → Option Metadata
  | ⟨0, _⟩ => get_metadata_from_openalex env.openalex doi
  | ⟨1, _⟩ => get_metadata_from_crossref env.crossref doi
  | ⟨2, _⟩ => get_metadata_from_datacite env.datacite doi
  | ⟨3, _⟩ => get_metadata_from_europepmc env.europepmc doi
  | ⟨4, _⟩ => get_metadata_from_semantic_scholar cfg env.semanticScholar doi
  | ⟨5, _⟩ => get_metadata_from_scopus cfg env.scopus doi
  | ⟨6, _⟩ => get_metadata_from_unpaywall cfg env.unpaywall doi

/-- The catalog name of each stage. -/
def stageName : Fin 7 → Str
  | ⟨0, _⟩ => "openalex".toList
  | ⟨1, _⟩ => "crossref".toList
  | ⟨2, _⟩ => "datacite".toList
  | ⟨3, _⟩ => "europepmc".toList
  | ⟨4, _⟩ => "semantic_scholar".toList
  | ⟨5, _⟩ => "scopus".toList
  | ⟨6, _⟩ => "unpaywall".toList

/-- C2: the resolver queries the enabled catalog sources in the fixed
priority order openalex, crossref, datacite, europepmc,
semantic_scholar, scopus, unpaywall; every produced result is tagged
with its catalog name; whenever every enabled higher-priority stage
yields nothing or an empty title and an enabled stage yields a result
with a nonempty title, that result is returned; and the resolver
returns none exactly when every enabled stage fails to yield a
title. -/
theorem claim_C2_resolver_priority_and_fallback :
    ∀ (cfg : ApiConfig) (env : ApiEnv) (doi : Str),
      (∀ (i : Fin 7) (md : Metadata),
        stageResult cfg env doi i = some md → md.source = stageName i) ∧
      (∀ (i : Fin 7) (md : Metadata),
        stageGate cfg i = true → stageResult cfg env doi i = some md → md.title ≠ [] →
        (∀ j : Fin 7, j < i → stageGate cfg j = true →
          ∀ md', stageResult cfg env doi j = some md' → md'.title = []) →
        get_metadata_from_multiple_sources cfg env doi = some md) ∧
      (get_metadata_from_multiple_sources cfg env doi = none ↔
        ∀ i : Fin 7, stageGate cfg i = true →
          ∀ md, stageResult cfg env doi i = some md → md.title = []) := by
  intro cfg env doi
  refine ⟨?_, ?_, ?_⟩
  · intro i md h
    fin_cases i
    · exact openalex_source_tag env.openalex doi md h
    · exact crossref_source_tag env.crossref doi md h
    · exact datacite_source_tag env.datacite doi md h
    · exact europepmc_source_tag env.europepmc doi md h
    · exact semantic_scholar_source_tag cfg env.semanticScholar doi md h
    · exact scopus_source_tag cfg env.scopus doi md h
    · exact unpaywall_source_tag cfg env.unpaywall doi md h
  · intro i md hg hr ht hprev
    have hhit : titledOf (stageResult cfg env doi i) = some md := by
      rw [hr]
      simp [titledOf, ht]
    fin_cases i
    · exact tryTitled_hit _ _ _ md hg hhit
    · exact (tryTitled_skip _ _ _ (fun hgj => (titledOf_eq_none_iff _).mpr
          (hprev ⟨0, by omega⟩ (by decide) hgj))).trans
        (tryTitled_hit _ _ _ md hg hhit)
    · exact (tryTitled_skip _ _ _ (fun hgj => (titledOf_eq_none_iff _).mpr
          (hprev ⟨0, by omega⟩ (by decide) hgj))).trans
        ((tryTitled_skip _ _ _ (fun hgj => (titledOf_eq_none_iff _).mpr
          (hprev ⟨1, by omega⟩ (by decide) hgj))).trans
        (tryTitled_hit _ _ _ md hg hhit))
    · exact (tryTitled_skip _ _ _ (fun hgj => (titledOf_eq_none_iff _).mpr
          (hprev ⟨0, by omega⟩ (by decide) hgj))).trans
        ((tryTitled_skip _ _ _ (fun hgj => (titledOf_eq_none_iff _).mpr
          (hprev ⟨1, by omega⟩ (by decide) hgj))).trans
        ((tryTitled_skip _ _ _ (fun hgj => (titledOf_eq_none_iff _).mpr
          (hprev ⟨2, by omega⟩ (by decide) hgj))).trans
        (tryTitled_hit _ _ _ md hg hhit)))
    · exact (tryTitled_skip _ _ _ (fun hgj => (titledOf_eq_none_iff _).mpr
          (hprev ⟨0, by omega⟩ (by decide) hgj))).trans
        ((tryTitled_skip _ _ _ (fun hgj => (titledOf_eq_none_iff _).mpr
          (hprev ⟨1, by omega⟩ (by decide) hgj))).trans
        ((tryTitled_skip _ _ _ (fun hgj => (titledOf_eq_none_iff _).mpr
          (hprev ⟨2, by omega⟩ (by decide) hgj))).trans
        ((tryTitled_skip _ _ _ (fun hgj => (titledOf_eq_none_iff _).mpr
          (hprev ⟨3, by omega⟩ (by decide) hgj))).trans
        (tryTitled_hit _ _ _ md hg hhit))))
    · exact (tryTitled_skip _ _ _ (fun hgj => (titledOf_eq_none_iff _).mpr
          (hprev ⟨0, by omega⟩ (by decide) hgj))).trans
        ((tryTitled_skip _ _ _ (fun hgj => (titledOf_eq_none_iff _).mpr
          (hprev ⟨1, by omega⟩ (by decide) hgj))).trans
        ((tryTitled_skip _ _ _ (fun hgj => (titledOf_eq_none_iff _).mpr
          (hprev ⟨2, by omega⟩ (by decide) hgj))).trans
        ((tryTitled_skip _ _ _ (fun hgj => (titledOf_eq_none_iff _).mpr
          (hprev ⟨3, by omega⟩ (by decide) hgj))).trans
        ((tryTitled_skip _ _ _ (fun hgj => (titledOf_eq_none_iff _).mpr
          (hprev ⟨4, by omega⟩ (by decide) hgj))).trans
        (tryTitled_hit _ _ _ md hg hhit)))))
    · exact (tryTitled_skip _ _ _ (fun hgj => (titledOf_eq_none_iff _).mpr
          (hprev ⟨0, by omega⟩ (by decide) hgj))).trans
        ((tryTitled_skip _ _ _ (fun hgj => (titledOf_eq_none_iff _).mpr
          (hprev ⟨1, by omega⟩ (by decide) hgj))).trans
        ((tryTitled_skip _ _ _ (fun hgj => (titledOf_eq_none_iff _).mpr
          (hprev ⟨2, by omega⟩ (by decide) hgj))).trans
        ((tryTitled_skip _ _ _ (fun hgj => (titledOf_eq_none_iff _).mpr
          (hprev ⟨3, by omega⟩ (by decide) hgj))).trans
        ((tryTitled_skip _ _ _ (fun hgj => (titledOf_eq_none_iff _).mpr
          (hprev ⟨4, by omega⟩ (by decide) hgj))).trans
        ((tryTitled_skip _ _ _ (fun hgj => (titledOf_eq_none_iff _).mpr
          (hprev ⟨5, by omega⟩ (by decide) hgj))).trans
        (tryTitled_hit _ _ _ md hg hhit))))))
  · unfold get_metadata_from_multiple_sources
    simp only [tryTitled_none_iff, and_true]
    constructor
    · rintro ⟨h0, h1, h2, h3, h4, h5, h6⟩ i
      fin_cases i <;> intro hg md hr
      · exact (titledOf_eq_none_iff _).mp (h0 hg) md hr
      · exact (titledOf_eq_none_iff _).mp (h1 hg) md hr
      · exact (titledOf_eq_none_iff _).mp (h2 hg) md hr
      · exact (titledOf_eq_none_iff _).mp (h3 hg) md hr
      · exact (titledOf_eq_none_iff _).mp (h4 hg) md hr
      · exact (titledOf_eq_none_iff _).mp (h5 hg) md hr
      · exact (titledOf_eq_none_iff _).mp (h6 hg) md hr
    · intro hall
      refine ⟨?_, ?_, ?_, ?_, ?_, ?_, ?_⟩ <;> intro hg
      · exact (titledOf_eq_none_iff _).mpr (hall ⟨0, by omega⟩ hg)
      · exact (titledOf_eq_none_iff _).mpr (hall ⟨1, by omega⟩ hg)
      · exact (titledOf_eq_none_iff _).mpr (hall ⟨2, by omega⟩ hg)
      · exact (titledOf_eq_none_iff _).mpr (hall ⟨3, by omega⟩ hg)
      · exact (titledOf_eq_none_iff _).mpr (hall ⟨4, by omega⟩ hg)
      · exact (titledOf_eq_none_iff _).mpr (hall ⟨5, by omega⟩ hg)
      · exact (titledOf_eq_none_iff _).mpr (hall ⟨6, by omega⟩ hg)

/-- A configuration with every source enabled (with a key and an
email). -/
def cfgAll : ApiConfig :=
  ⟨true, true, true, true, true, true, "k".toList, true, "e".toList⟩

/-- A Europe PMC response holding a titled record. -/
def epmcHit : EPMCResp :=
  ⟨[⟨some "T".toList, none, some "2020".toList, none, none, none, none, none⟩]⟩

/-- Network responses where only Europe PMC (priority four) has the
DOI; all higher- and lower-priority sources fail. -/
def envEpmcOnly : ApiEnv := ⟨none, none, none, some epmcHit, none, none, none⟩

/-- The metadata the Europe PMC adapter builds from epmcHit. -/
def mdEpmcHit : Metadata :=
  { doi := "10.1/x".toList
    title := "T".toList
    authors := []
    year := "2020".toList
    journal := []
    volume := []
    issue := []
    pages := []
    category := []
    subjects := []
    source := "europepmc".toList }

/-- C2 witness: with every source enabled and the DOI known only to the
fourth-priority source, the resolver falls back to it and tags the
result europepmc. -/
theorem claim_C2_witness :
    get_metadata_from_multiple_sources cfgAll envEpmcOnly "10.1/x".toList = some mdEpmcHit ∧
    mdEpmcHit.source = "europepmc".toList := by
  have H := (claim_C2_resolver_priority_and_fallback cfgAll envEpmcOnly "10.1/x".toList).2.1
    ⟨3, by omega⟩ mdEpmcHit rfl (by decide) (by decide)
    (by
      intro j hj hgj md' hr'
      fin_cases j
      · exact Option.noConfusion hr'
      · exact Option.noConfusion hr'
      · exact Option.noConfusion hr'
      · exact absurd hj (by decide)
      · exact absurd hj (by decide)
      · exact absurd hj (by decide)
      · exact absurd hj (by decide))
  exact ⟨H, rfl⟩

/-- A Crossref message with a title and one author record whose family
name is Smith. -/
def crMsgSmith : CrossrefMsg :=
  ⟨["T".toList], some [⟨some "Smith".toList⟩], none, none, none, [], []⟩

/-- C8 counterexample: the claim says every author entry produced by a
Resolver source adapter is a structured record with a family name,
never a bare string.  The Crossref adapter appends author family names
as bare strings (pdf_metadata_extractor.py lines 224-230): here the
produced author list is the bare string Smith. -/
theorem claim_C8_counterexample_crossref_bare_string :
    (get_metadata_from_crossref (some crMsgSmith) "10.1/x".toList).map Metadata.authors
      = some [Author.str "Smith".toList] := by
  rfl

/-- Every author list the semantic scholar author loop produces
consists of bare strings. -/
theorem ssAuthors_all_str : ∀ (l : List (Option Str)) (la : List Author),
    ssAuthors l = some la → ∀ a ∈ la, ∃ s, a = Author.str s := by
  intro l
  induction l with
  | nil => intro la h; cases h; simp
  | cons o rest ih =>
    intro la h
    cases o with
    | none => exact ih la h
    | some nm =>
      unfold ssAuthors at h
      cases hlast : (pySplit nm).getLast? with
      | none => rw [hlast] at h; cases h
      | some last =>
        rw [hlast] at h
        cases hrest : ssAuthors rest with
        | none => rw [hrest] at h; cases h
        | some r =>
          rw [hrest] at h
          simp only [Option.map_some'] at h
          cases h
          intro a ha
          rcases List.mem_cons.mp ha with rfl | ha
          · exact ⟨last, rfl⟩
          · exact ih r hrest a ha

/-- C8 amended: the adapters do not share one author representation:
the OpenAlex adapter alone produces structured author records (family,
given and full name all present); the Crossref, DataCite, Europe PMC,
Semantic Scholar and Scopus adapters produce bare family-name strings;
Unpaywall produces no authors.  Downstream consumers see both
representations. -/
theorem claim_C8_amended_author_shapes :
    ∀ (cfg : ApiConfig) (envO : Option OpenAlexResp) (envC : Option CrossrefMsg)
      (envD : Option DataCiteAttrs) (envE : Option EPMCResp) (envS : Option SSResp)
      (envSc : Option ScopusResp) (envU : Option UnpaywallResp) (doi : Str) (md : Metadata),
      (get_metadata_from_openalex envO doi = some md →
        ∀ a ∈ md.authors, ∃ f g n, a = Author.dict (some f) (some g) (some n)) ∧
      (get_metadata_from_crossref envC doi = some md →
        ∀ a ∈ md.authors, ∃ s, a = Author.str s) ∧
      (get_metadata_from_datacite envD doi = some md →
        ∀ a ∈ md.authors, ∃ s, a = Author.str s) ∧
      (get_metadata_from_europepmc envE doi = some md →
        ∀ a ∈ md.authors, ∃ s, a = Author.str s) ∧
      (get_metadata_from_semantic_scholar cfg envS doi = some md →
        ∀ a ∈ md.authors, ∃ s, a = Author.str s) ∧
      (get_metadata_from_scopus cfg envSc doi = some md →
        ∀ a ∈ md.authors, ∃ s, a = Author.str s) ∧
      (get_metadata_from_unpaywall cfg envU doi = some md → md.authors = []) := by
  intro cfg envO envC envD envE envS envSc envU doi md
  refine ⟨?_, ?_, ?_, ?_, ?_, ?_, ?_⟩
  · intro h a ha
    unfold get_metadata_from_openalex at h
    cases envO with
    | none => exact absurd h (by simp)
    | some r =>
      dsimp only at h
      cases h
      simp only [List.mem_map] at ha
      obtain ⟨nm, _, rfl⟩ := ha
      exact ⟨_, _, _, rfl⟩
  · intro h a ha
    unfold get_metadata_from_crossref at h
    cases envC with
    | none => exact absurd h (by simp)
    | some m =>
      dsimp only at h
      cases h
      simp only [List.mem_filterMap] at ha
      obtain ⟨ca, _, hmap⟩ := ha
      cases hf : ca.family with
      | none => rw [hf] at hmap; cases hmap
      | some fam =>
        rw [hf] at hmap
        simp only [Option.map_some', Option.some.injEq] at hmap
        exact ⟨fam, hmap.symm⟩
  · intro h a ha
    unfold get_metadata_from_datacite at h
    cases envD with
    | none => exact absurd h (by simp)
    | some attrs =>
      dsimp only at h
      cases h
      simp only [List.mem_filterMap] at ha
      obtain ⟨c, _, hmap⟩ := ha
      cases hf : dcCreatorName c with
      | none => rw [hf] at hmap; cases hmap
      | some nm =>
        rw [hf] at hmap
        simp only [Option.map_some', Option.some.injEq] at hmap
        exact ⟨nm, hmap.symm⟩
  · intro h a ha
    unfold get_metadata_from_europepmc at h
    cases envE with
    | none => exact absurd h (by simp)
    | some resp =>
      dsimp only at h
      split at h
      · cases h
      · split at h
        · cases h
        · cases h
          simp only [List.mem_filterMap] at ha
          obtain ⟨o, _, hmap⟩ := ha
          cases o with
          | none => cases hmap
          | some nm =>
            simp only [Option.map_some', Option.some.injEq] at hmap
            exact ⟨nm, hmap.symm⟩
  · intro h a ha
    unfold get_metadata_from_semantic_scholar at h
    split at h
    · cases h
    · cases envS with
      | none => exact absurd h (by simp)
      | some r =>
        dsimp only at h
        cases hsa : ssAuthors (r.authors.getD []) with
        | none => rw [hsa] at h; cases h
        | some la =>
          rw [hsa] at h
          dsimp only at h
          split at h
          · cases h
          · cases h
            exact ssAuthors_all_str _ la hsa a ha
  · intro h a ha
    unfold get_metadata_from_scopus at h
    split at h
    · cases h
    · split at h
      · cases h
      · cases envSc with
        | none => exact absurd h (by simp)
        | some r =>
          dsimp only at h
          split at h
          · cases h
          · cases h
            simp only [List.mem_filterMap] at ha
            obtain ⟨o, _, hmap⟩ := ha
            cases o with
            | none => cases hmap
            | some nm =>
              simp only [Option.map_some', Option.some.injEq] at hmap
              exact ⟨nm, hmap.symm⟩
  · intro h
    unfold get_metadata_from_unpaywall at h
    split at h
    · cases h
    · split at h
      · cases h
      · cases envU with
        | none => exact absurd h (by simp)
        | some r => dsimp only at h; cases h; rfl

/-- Unfolding of intercalate with two or more pieces. -/
theorem intercalate_cons_cons_eq (sep a b : Str) (l : List Str) :
    List.intercalate sep (a :: b :: l) = a ++ sep ++ List.intercalate sep (b :: l) := by
  simp [List.intercalate, List.intersperse]

/-- Unfolding of intercalate with one piece. -/
theorem intercalate_singleton_eq (sep a : Str) : List.intercalate sep [a] = a := by
  simp [List.intercalate]

/-- A character absent from the separator and from every piece is
absent from their intercalation. -/
theorem not_mem_intercalate (c : Char) (sep : Str) (hs : c ∉ sep) :
    ∀ l : List Str, (∀ s ∈ l, c ∉ s) → c ∉ List.intercalate sep l := by
  intro l
  induction l with
  | nil => intro _; simp [List.intercalate]
  | cons a t ih =>
    intro h
    cases t with
    | nil =>
      rw [intercalate_singleton_eq]
      exact h a (by simp)
    | cons b u =>
      rw [intercalate_cons_cons_eq]
      simp only [List.mem_append, not_or]
      exact ⟨⟨h a (by simp), hs⟩, ih (fun s hsm => h s (by simp [hsm]))⟩

/-- The last element with default of a nonempty list is a member. -/
theorem getLastD_mem_of_ne_nil {α : Type} (l : List α) (d : α) (h : l ≠ []) :
    l.getLastD d ∈ l := by
  induction l with
  | nil => exact absurd rfl h
  | cons a t ih =>
    cases t with
    | nil => simp
    | cons b u =>
      have := ih (by simp)
      simp only [List.getLastD]
      exact List.mem_cons_of_mem a this

/-- C7 counterexample: two valid authors (the one-character strings
comma and comma survive the validity filter) whose formatted names are
both empty; the output is Unknown with no ampersand at all, while the
claim demands a comma-joined list with exactly one ampersand for every
list of two to seven valid authors. -/
theorem claim_C7_counterexample_two_empty_formats :
    ([Author.str [','], Author.str [',']].filter validAuthor).length = 2 ∧
    format_authors_for_reference [Author.str [','], Author.str [',']] = "Unknown".toList ∧
    ("Unknown".toList.count '&') = 0 := by
  refine ⟨by decide, by decide, by decide⟩

/-- C7 amended: the author-list joining rule of the full reference,
restricted as the code forces: 0 valid authors give Unknown; 1 valid
author gives that one formatted name; 2-7 valid authors whose formatted
names are all nonempty are comma-joined with an ampersand before the
final name (and when no formatted name contains an ampersand the output
has exactly one); 8 or more valid authors with nonempty first-six and
last formatted names give the first six, a literal dots token and the
last author (the token appearing exactly once when no formatted name
is itself the dots string). -/
theorem claim_C7_amended_author_join_rule :
    ∀ (authors : List Author),
      (authors.filter validAuthor = [] →
        format_authors_for_reference authors = "Unknown".toList) ∧
      (∀ a, authors.filter validAuthor = [a] →
        format_authors_for_reference authors = format_author_name a) ∧
      (2 ≤ (authors.filter validAuthor).length →
        (authors.filter validAuthor).length < 8 →
        (∀ f ∈ (authors.filter validAuthor).map format_author_name, f ≠ []) →
        (format_authors_for_reference authors =
            List.intercalate ", ".toList
                (((authors.filter validAuthor).map format_author_name).dropLast)
              ++ ", & ".toList
              ++ ((authors.filter validAuthor).map format_author_name).getLastD [] ∧
          ((∀ f ∈ (authors.filter validAuthor).map format_author_name, '&' ∉ f) →
            (format_authors_for_reference authors).count '&' = 1))) ∧
      (8 ≤ (authors.filter validAuthor).length →
        (∀ f ∈ ((authors.filter validAuthor).take 6).map format_author_name, f ≠ []) →
        format_author_name ((authors.filter validAuthor).getLastD (Author.str [])) ≠ [] →
        (format_authors_for_reference authors =
            List.intercalate ", ".toList
              ((((authors.filter validAuthor).take 6).map format_author_name)
                ++ ["...".toList]
                ++ [format_author_name ((authors.filter validAuthor).getLastD (Author.str []))]) ∧
          ((∀ f ∈ ((authors.filter validAuthor).take 6).map format_author_name,
              f ≠ "...".toList) →
            format_author_name ((authors.filter validAuthor).getLastD (Author.str []))
              ≠ "...".toList →
            (((((authors.filter validAuthor).take 6).map format_author_name)
                ++ ["...".toList]
                ++ [format_author_name ((authors.filter validAuthor).getLastD (Author.str []))]).count
              "...".toList) = 1))) := by
  intro authors
  refine ⟨?_, ?_, ?_, ?_⟩
  · intro h
    unfold format_authors_for_reference
    rw [if_pos h]
  · intro a h
    unfold format_authors_for_reference
    rw [h]
    simp
  · intro h2 h8 hne
    have hva : ¬ authors.filter validAuthor = [] := by
      intro h; rw [h] at h2; simp at h2
    have hlen1 : ¬ (authors.filter validAuthor).length = 1 := by omega
    have hform : ((authors.filter validAuthor).map format_author_name).filter
        (fun fa => fa ≠ []) = (authors.filter validAuthor).map format_author_name :=
      List.filter_eq_self.mpr (fun a ha => by simpa using hne a ha)
    have hfalen : ((authors.filter validAuthor).map format_author_name).length
        = (authors.filter validAuthor).length := by simp
    have hfane : ¬ (authors.filter validAuthor).map format_author_name = [] := by
      intro h
      have := congrArg List.length h
      simp only [hfalen, List.length_nil] at this
      omega
    have hfalen1 : ¬ ((authors.filter validAuthor).map format_author_name).length = 1 := by
      omega
    have hout : format_authors_for_reference authors =
        List.intercalate ", ".toList
            (((authors.filter validAuthor).map format_author_name).dropLast)
          ++ ", & ".toList
          ++ ((authors.filter validAuthor).map format_author_name).getLastD [] := by
      unfold format_authors_for_reference
      rw [if_neg hva, if_neg hlen1, if_pos h8]
      simp only [hform]
      rw [if_neg hfane, if_neg (by rw [hfalen]; exact hlen1)]
    refine ⟨hout, ?_⟩
    intro hamp
    rw [hout]
    rw [List.count_append, List.count_append]
    have c1 : (List.intercalate ", ".toList
        (((authors.filter validAuthor).map format_author_name).dropLast)).count '&' = 0 := by
      rw [List.count_eq_zero]
      exact not_mem_intercalate '&' ", ".toList (by decide) _
        (fun s hs => hamp s (List.dropLast_subset _ hs))
    have c2 : (", & ".toList).count '&' = 1 := by decide
    have c3 : (((authors.filter validAuthor).map format_author_name).getLastD []).count '&'
        = 0 := by
      rw [List.count_eq_zero]
      exact hamp _ (getLastD_mem_of_ne_nil _ [] hfane)
    omega
  · intro h8 hne hlast
    have hva : ¬ authors.filter validAuthor = [] := by
      intro h; rw [h] at h8; simp at h8
    have hlen1 : ¬ (authors.filter validAuthor).length = 1 := by omega
    have hnot8 : ¬ (authors.filter validAuthor).length < 8 := by omega
    have hform : (((authors.filter validAuthor).take 6).map format_author_name).filter
        (fun fa => fa ≠ []) = ((authors.filter validAuthor).take 6).map format_author_name :=
      List.filter_eq_self.mpr (fun a ha => by simpa using hne a ha)
    have hfalen : (((authors.filter validAuthor).take 6).map format_author_name).length
        = 6 := by
      simp only [List.length_map, List.length_take]
      omega
    have hfane : ¬ ((authors.filter validAuthor).take 6).map format_author_name = [] := by
      intro h
      have := congrArg List.length h
      simp only [hfalen, List.length_nil] at this
      omega
    have hout : format_authors_for_reference authors =
        List.intercalate ", ".toList
          ((((authors.filter validAuthor).take 6).map format_author_name)
            ++ ["...".toList]
            ++ [format_author_name ((authors.filter validAuthor).getLastD (Author.str []))]) := by
      unfold format_authors_for_reference
      rw [if_neg hva, if_neg hlen1, if_neg hnot8]
      simp only [hform]
      rw [if_neg hfane, if_pos hlast]
    refine ⟨hout, ?_⟩
    intro hdots hlastdots
    rw [List.count_append, List.count_append]
    have c1 : ((((authors.filter validAuthor).take 6).map format_author_name).count
        "...".toList) = 0 := by
      rw [List.count_eq_zero]
      intro hmem
      exact hdots _ hmem rfl
    have c2 : (["...".toList].count "...".toList) = 1 := by decide
    have c3 : ([format_author_name ((authors.filter validAuthor).getLastD (Author.str []))].count
        "...".toList) = 0 := by
      rw [List.count_eq_zero]
      intro hmem
      rcases List.mem_singleton.mp hmem with h
      exact hlastdots h.symm
    omega

/-- Every word the splitter emits is nonempty and free of whitespace,
provided the accumulator is. -/
theorem pySplitAux_words : ∀ (s acc : Str), (∀ c ∈ acc, pyIsSpace c = false) →
    ∀ w ∈ pySplitAux s acc, w ≠ [] ∧ ∀ c ∈ w, pyIsSpace c = false := by
  intro s
  induction s with
  | nil =>
    intro acc hacc w hw
    unfold pySplitAux at hw
    split at hw
    · simp at hw
    · next hne =>
      rcases List.mem_singleton.mp hw with rfl
      refine ⟨by simpa using hne, ?_⟩
      intro c hc
      exact hacc c (List.mem_reverse.mp hc)
  | cons c cs ih =>
    intro acc hacc w hw
    unfold pySplitAux at hw
    split at hw
    · split at hw
      · exact ih [] (by simp) w hw
      · next hne =>
        rcases List.mem_cons.mp hw with rfl | hw
        · refine ⟨by simpa using hne, ?_⟩
          intro d hd
          exact hacc d (List.mem_reverse.mp hd)
        · exact ih [] (by simp) w hw
    · next hcsp =>
      refine ih (c :: acc) ?_ w hw
      intro d hd
      rcases List.mem_cons.mp hd with rfl | hd
      · simpa using hcsp
      · exact hacc d hd

/-- Every character of an emitted word comes from the input or the
accumulator. -/
theorem mem_pySplitAux_chars : ∀ (s acc : Str) (w : Str), w ∈ pySplitAux s acc →
    ∀ c ∈ w, c ∈ s ∨ c ∈ acc := by
  intro s
  induction s with
  | nil =>
    intro acc w hw c hc
    unfold pySplitAux at hw
    split at hw
    · simp at hw
    · rcases List.mem_singleton.mp hw with rfl
      exact Or.inr (List.mem_reverse.mp hc)
  | cons a cs ih =>
    intro acc w hw c hc
    unfold pySplitAux at hw
    split at hw
    · split at hw
      · rcases ih [] w hw c hc with h | h
        · exact Or.inl (List.mem_cons_of_mem a h)
        · simp at h
      · rcases List.mem_cons.mp hw with rfl | hw
        · exact Or.inr (List.mem_reverse.mp hc)
        · rcases ih [] w hw c hc with h | h
          · exact Or.inl (List.mem_cons_of_mem a h)
          · simp at h
    · rcases ih (a :: acc) w hw c hc with h | h
      · exact Or.inl (List.mem_cons_of_mem a h)
      · rcases List.mem_cons.mp h with rfl | h
        · exact Or.inl (by simp)
        · exact Or.inr h

/-- Every character of an intercalation comes from the separator or a
piece. -/
theorem mem_intercalate_imp (c : Char) (sep : Str) :
    ∀ l : List Str, c ∈ List.intercalate sep l → c ∈ sep ∨ ∃ w ∈ l, c ∈ w := by
  intro l
  induction l with
  | nil => intro h; simp [List.intercalate] at h
  | cons a t ih =>
    intro h
    cases t with
    | nil =>
      rw [intercalate_singleton_eq] at h
      exact Or.inr ⟨a, by simp, h⟩
    | cons b u =>
      rw [intercalate_cons_cons_eq] at h
      simp only [List.mem_append] at h
      rcases h with (h | h) | h
      · exact Or.inr ⟨a, by simp, h⟩
      · exact Or.inl h
      · rcases ih h with h | ⟨w, hw, hcw⟩
        · exact Or.inl h
        · exact Or.inr ⟨w, by simp [hw], hcw⟩

/-- Replacement is the identity on strings without invalid
characters. -/
theorem replaceInvalid_eq_self : ∀ s : Str, (∀ c ∈ s, invalidFileChar c = false) →
    replaceInvalid s = s := by
  intro s h
  unfold replaceInvalid
  induction s with
  | nil => rfl
  | cons a t ih =>
    simp only [List.map_cons, List.cons.injEq]
    constructor
    · have := h a (by simp)
      simp [this]
    · exact ih (fun c hc => h c (by simp [hc]))

/-- The replacement output carries no invalid characters. -/
theorem replaceInvalid_no_invalid (s : Str) :
    ∀ c ∈ replaceInvalid s, invalidFileChar c = false := by
  intro c hc
  unfold replaceInvalid at hc
  rcases List.mem_map.mp hc with ⟨d, _, rfl⟩
  by_cases hd : invalidFileChar d = true
  · simp [hd]
    decide
  · simp only [Bool.not_eq_true] at hd
    simp [hd]

/-- Definitional unfolding of the splitter on a cons. -/
theorem pySplitAux_cons (c : Char) (cs acc : Str) :
    pySplitAux (c :: cs) acc =
      if pyIsSpace c then
        (if acc = [] then pySplitAux cs [] else acc.reverse :: pySplitAux cs [])
      else pySplitAux cs (c :: acc) := rfl

/-- Definitional unfolding of the splitter on the empty string. -/
theorem pySplitAux_nil (acc : Str) :
    pySplitAux [] acc = if acc = [] then [] else [acc.reverse] := rfl

/-- Consuming a whitespace-free word moves it whole into the
accumulator. -/
theorem pySplitAux_word_prefix : ∀ (w rest acc : Str), (∀ c ∈ w, pyIsSpace c = false) →
    pySplitAux (w ++ rest) acc = pySplitAux rest (w.reverse ++ acc) := by
  intro w
  induction w with
  | nil => intro rest acc _; simp
  | cons c cs ih =>
    intro rest acc h
    have hc : pyIsSpace c = false := h c (by simp)
    rw [List.cons_append, pySplitAux_cons, if_neg (by simp [hc])]
    rw [ih rest (c :: acc) (fun d hd => h d (List.mem_cons_of_mem c hd))]
    simp

/-- Splitting the space-joined words recovers them, when every word is
nonempty and whitespace-free. -/
theorem pySplit_spaceJoin : ∀ ws : List Str,
    (∀ w ∈ ws, w ≠ [] ∧ ∀ c ∈ w, pyIsSpace c = false) →
    pySplit (spaceJoin ws) = ws := by
  intro ws
  induction ws with
  | nil => intro _; rfl
  | cons w t ih =>
    intro h
    obtain ⟨hwne, hwsp⟩ := h w (by simp)
    cases t with
    | nil =>
      unfold pySplit spaceJoin
      rw [intercalate_singleton_eq]
      rw [show w = w ++ [] by simp, pySplitAux_word_prefix w [] [] hwsp]
      rw [pySplitAux_nil, if_neg (by simpa using hwne)]
      simp
    | cons w2 t2 =>
      unfold pySplit spaceJoin
      rw [intercalate_cons_cons_eq]
      rw [List.append_assoc, pySplitAux_word_prefix w _ [] hwsp]
      rw [show ([' '] ++ List.intercalate [' '] (w2 :: t2)) =
          ' ' :: List.intercalate [' '] (w2 :: t2) by simp]
      rw [pySplitAux_cons, if_pos (show pyIsSpace ' ' = true from rfl)]
      rw [if_neg (by simpa using hwne)]
      have hrec := ih (fun u hu => h u (List.mem_cons_of_mem w hu))
      unfold pySplit at hrec
      unfold spaceJoin at hrec
      rw [hrec]
      simp

/-- Collapsing never lengthens the string. -/
theorem spaceJoin_pySplitAux_length : ∀ (s acc : Str),
    (spaceJoin (pySplitAux s acc)).length ≤ acc.length + s.length := by
  intro s
  induction s with
  | nil =>
    intro acc
    rw [pySplitAux_nil]
    split
    · simp [spaceJoin, List.intercalate]
    · rw [spaceJoin, intercalate_singleton_eq]
      simp
  | cons c cs ih =>
    intro acc
    rw [pySplitAux_cons]
    split
    · split
      · have := ih []
        simp only [List.length_nil] at this
        simp only [List.length_cons]
        omega
      · cases hm : pySplitAux cs [] with
        | nil =>
          rw [spaceJoin, intercalate_singleton_eq]
          simp only [List.length_reverse, List.length_cons]
          omega
        | cons m mt =>
          rw [spaceJoin, intercalate_cons_cons_eq]
          have hrec := ih []
          rw [hm] at hrec
          simp only [List.length_nil, Nat.zero_add] at hrec
          rw [spaceJoin] at hrec
          simp only [List.length_append, List.length_reverse, List.length_cons,
            List.length_nil]
          omega
    · have := ih (c :: acc)
      simp only [List.length_cons] at this
      simp only [List.length_cons]
      omega

/-- An input on which sanitizing is not idempotent: ten a characters, a
dot, and a 240-character extension.  The truncation branch slices the
stem with a negative bound and produces a 246-character result, which a
second pass truncates differently. -/
def sanIdemCx : Str := List.replicate 10 'a' ++ '.' :: List.replicate 240 'b'

/-- C10 counterexample: sanitize_filename applied twice differs from
applying it once on this input (the first pass yields 246 characters,
the second 241), so the function is not idempotent. -/
theorem claim_C10_counterexample_not_idempotent :
    sanitize_filename (sanitize_filename sanIdemCx) ≠ sanitize_filename sanIdemCx ∧
    (sanitize_filename sanIdemCx).length = 246 ∧
    (sanitize_filename (sanitize_filename sanIdemCx)).length = 241 := by
  refine ⟨by decide, by decide, by decide⟩

/-- C10 amended: sanitize_filename is idempotent on every input that
does not trigger the length-truncation branch, in particular on every
input of at most 240 characters; the truncation branch can produce
over-length or space-trailing outputs that a second pass changes. -/
theorem claim_C10_amended_idempotent_without_truncation :
    ∀ s : Str, s.length ≤ 240 →
      sanitize_filename (sanitize_filename s) = sanitize_filename s := by
  intro s hs
  have hrep_len : (replaceInvalid s).length = s.length := by simp [replaceInvalid]
  have hlen2 : (spaceJoin (pySplit (replaceInvalid s))).length ≤ 240 := by
    have := spaceJoin_pySplitAux_length (replaceInvalid s) []
    unfold pySplit
    simp only [List.length_nil, Nat.zero_add] at this
    omega
  have hsan1 : sanitize_filename s = spaceJoin (pySplit (replaceInvalid s)) := by
    unfold sanitize_filename
    dsimp only
    rw [if_neg (by omega)]
  have hnoinv : ∀ c ∈ spaceJoin (pySplit (replaceInvalid s)), invalidFileChar c = false := by
    intro c hc
    rcases mem_intercalate_imp c [' '] _ hc with hsep | ⟨w, hw, hcw⟩
    · rcases List.mem_singleton.mp hsep with rfl
      decide
    · rcases mem_pySplitAux_chars (replaceInvalid s) [] w hw c hcw with h | h
      · exact replaceInvalid_no_invalid s c h
      · simp at h
  have hwords : ∀ w ∈ pySplit (replaceInvalid s), w ≠ [] ∧ ∀ c ∈ w, pyIsSpace c = false :=
    pySplitAux_words (replaceInvalid s) [] (by simp)
  have hsplit2 : pySplit (spaceJoin (pySplit (replaceInvalid s)))
      = pySplit (replaceInvalid s) :=
    pySplit_spaceJoin (pySplit (replaceInvalid s)) hwords
  have hsan2 : sanitize_filename (spaceJoin (pySplit (replaceInvalid s)))
      = spaceJoin (pySplit (replaceInvalid s)) := by
    unfold sanitize_filename
    dsimp only
    rw [replaceInvalid_eq_self _ hnoinv, hsplit2]
    rw [if_neg (by omega)]
  rw [hsan1, hsan2]

/-- C10 amended witness: on the short input a-space-space-b the
sanitized result is stable under a second application. -/
theorem claim_C10_amended_witness :
    sanitize_filename (sanitize_filename "a  b".toList) = sanitize_filename "a  b".toList :=
  claim_C10_amended_idempotent_without_truncation "a  b".toList (by decide)
